import Mathlib

/-!
# PZEM004T driver (`Core/Src/pzem004t.c`, `Core/Inc/pzem004t.h`)

A shallow embedding of the driver's protocol engine.

* Bytes (`uint8_t`), CRC accumulators (`uint16_t`) and ticks (`uint32_t`) are
  natural numbers; a reduction `% 2^w` is written where the C code narrows a
  value.  Buffers are lists read with `List.getD` and written with `List.set`.
* The UART peripheral and the HAL are an explicit environment (`UART`): the
  verdict of `HAL_UART_Transmit`, the tick read when reception starts and one
  `Poll` record for every iteration of the receive loop, holding what each
  register or tick read of that iteration returns.
* A function that polls the peripheral returns `none` when the recorded
  environment ends while the loop is still running.
* The accessors return `float` in C; here the raw integer is decoded exactly
  as in the source and the final division is taken in `ℚ`.
-/

namespace PZEM

/-! ## Constants -/

/-- Size of the read response (`#define RESPONSE_SIZE 25`). -/
def RESPONSE_SIZE : Nat := 25

/-- Default timeout in ms (`#define READ_TIMEOUT 200`). -/
def READ_TIMEOUT : Nat := 200

/-- Function code of the bulk read (`#define PZEM_READ_COMMAND 0x04`). -/
def PZEM_READ_COMMAND : Nat := 0x04

/-- Function code of the energy reset (`#define PZEM_RESET_ENERGY 0x42`). -/
def PZEM_RESET_ENERGY : Nat := 0x42

/-! ## CRC16 -/

/-- Body of the inner loop of `calculateCRC`: one shift of the accumulator,
with the polynomial `0xA001` folded in when the low bit was set. -/
def crcBit (crc : Nat) : Nat :=
  if crc &&& 0x0001 ≠ 0 then (crc >>> 1) ^^^ 0xA001 else crc >>> 1

/-- Inner loop `for (j = 0; j < 8; j++)` of `calculateCRC`, run `j` times. -/
def crcBits : Nat → Nat → Nat
  | 0, crc => crc
  | j + 1, crc => crcBits j (crcBit crc)

/-- Body of the outer loop of `calculateCRC` for one data byte. -/
def crcByte (crc b : Nat) : Nat := crcBits 8 (crc ^^^ b)

/-- Function `calculateCRC(data, len)`: the accumulator starts at `0xFFFF` and
absorbs `data[0] .. data[len-1]` in index order. -/
def calculateCRC (data : List Nat) (len : Nat) : Nat :=
  (List.range len).foldl (fun crc i => crcByte crc (data.getD i 0)) 0xFFFF

/-! ## Device handle -/

/-- Device handle `PZEM_t`; `huart` stands for the pointer to the UART
handle. -/
structure PZEM_t where
  huart : Nat
  addr : Nat
  timeout : Nat
  lastResponse : List Nat
deriving DecidableEq, Repr

/-- Values a `PZEM_t` object can hold in C: an 8-bit address, a 32-bit
timeout and 25 cached bytes. -/
def PZEM_t.WF (p : PZEM_t) : Prop :=
  p.addr < 256 ∧ p.timeout < 2 ^ 32 ∧ p.lastResponse.length = 25 ∧
    ∀ b ∈ p.lastResponse, b < 256

/-! ## Environment: UART peripheral and HAL -/

/-- What the peripheral and the tick counter return during one iteration of
the receive loop of `sendReceive`. -/
structure Poll where
  /-- Result of `SR & USART_SR_RXNE` being non-zero (line 64). -/
  rxne : Bool
  /-- Value of the data register `DR`, read only when `rxne` (line 65). -/
  dr : Nat
  /-- Value of `HAL_GetTick()` stored in `lastByteTime` (line 67). -/
  tickByte : Nat
  /-- Value of `HAL_GetTick()` in the overall guard (line 71). -/
  tickTotal : Nat
  /-- Value of `HAL_GetTick()` in the inter-byte guard (line 72). -/
  tickIdle : Nat
deriving DecidableEq, Repr

/-- Behaviour of the transport during one transaction. -/
structure UART where
  /-- Whether `HAL_UART_Transmit(huart, frame, size, timeout)` returns
  `HAL_OK`, given the frame and the timeout it was called with. -/
  transmit : List Nat → Nat → Bool
  /-- Value of `HAL_GetTick()` stored in `startTime` (line 58). -/
  startTick : Nat
  /-- Successive iterations of the receive loop. -/
  polls : List Poll

/-- Unsigned 32-bit subtraction `a - b` of two tick values. -/
def sub32 (a b : Nat) : Nat := (a % 2 ^ 32 + 2 ^ 32 - b % 2 ^ 32) % 2 ^ 32

/-- Local variables of the receive loop of `sendReceive`. -/
structure RxState where
  recvBuffer : List Nat
  bytesReceived : Nat
  lastByteTime : Nat
deriving DecidableEq, Repr

/-- Lines 64-68: when a byte is ready it is stored at index `bytesReceived`,
the count is incremented and the tick of the last byte is recorded. -/
def recvByte (s : RxState) (p : Poll) : RxState :=
  if p.rxne then
    { recvBuffer := s.recvBuffer.set s.bytesReceived (p.dr % 256)
      bytesReceived := (s.bytesReceived + 1) % 256
      lastByteTime := p.tickByte % 2 ^ 32 }
  else s

/-- Lines 71-72: the condition of the `break`, evaluated on the state after
the byte (if any) of this iteration was stored. -/
def timedOut (timeout startTime : Nat) (s : RxState) (p : Poll) : Bool :=
  decide (sub32 p.tickTotal startTime > timeout) ||
    (decide (s.bytesReceived > 0) && decide (sub32 p.tickIdle s.lastByteTime > 50))

/-- One iteration of the body of the receive loop: the new state and whether
the `break` was taken. -/
def recvStep (timeout startTime : Nat) (s : RxState) (p : Poll) : RxState × Bool :=
  (recvByte s p, timedOut timeout startTime (recvByte s p) p)

/-- Receive loop `while (bytesReceived < recvSize)` of `sendReceive` run over
the recorded polls; `none` when the record ends before the loop does. -/
def recvLoop (timeout startTime recvSize : Nat) : List Poll → RxState → Option RxState
  | [], s => if s.bytesReceived < recvSize then none else some s
  | p :: ps, s =>
    if s.bytesReceived < recvSize then
      if (recvStep timeout startTime s p).2 then some (recvStep timeout startTime s p).1
      else recvLoop timeout startTime recvSize ps (recvStep timeout startTime s p).1
    else some s

/-- Lines 102-111 of `sendReceive`: the trailing two bytes, assembled
low-byte-first into a `uint16_t`, are compared with the CRC of the rest. -/
def verifyCRC (recvBuffer : List Nat) (recvSize : Nat) : Bool :=
  let receivedCRC :=
    ((recvBuffer.getD (recvSize - 1) 0 <<< 8) ||| recvBuffer.getD (recvSize - 2) 0) % 65536
  let calculatedCRC := calculateCRC recvBuffer (recvSize - 2)
  if receivedCRC ≠ calculatedCRC then false else true

/-- Function `sendReceive`: the verdict and the final contents of
`recvBuffer`.  The initial loop that discards stale bytes writes only to a
dummy local and is not represented. -/
def sendReceive (pzem : PZEM_t) (uart : UART) (sendBuffer : List Nat) (sendSize : Nat)
    (recvBuffer : List Nat) (recvSize : Nat) : Option (Bool × List Nat) :=
  if uart.transmit (sendBuffer.take sendSize) pzem.timeout = false then
    some (false, recvBuffer)
  else
    match recvLoop pzem.timeout (uart.startTick % 2 ^ 32) recvSize uart.polls
        { recvBuffer := recvBuffer, bytesReceived := 0,
          lastByteTime := uart.startTick % 2 ^ 32 } with
    | none => none
    | some s =>
      if s.bytesReceived = 0 then some (false, s.recvBuffer)
      else if s.bytesReceived < recvSize then some (false, s.recvBuffer)
      else if verifyCRC s.recvBuffer recvSize = false then some (false, s.recvBuffer)
      else some (true, s.recvBuffer)

/-! ## Device operations -/

/-- Function `PZEM_Init`: every field of the handle is overwritten. -/
def PZEM_Init (_pzem : PZEM_t) (huart addr : Nat) : PZEM_t :=
  { huart := huart, addr := addr, timeout := READ_TIMEOUT,
    lastResponse := List.replicate 25 0 }

/-- Command buffer built by `readRegisters` (lines 129-139). -/
def readCommand (addr : Nat) : List Nat :=
  let command := [addr, PZEM_READ_COMMAND, 0x00, 0x00, 0x00, 0x0A, 0, 0]
  let crc := calculateCRC command 6
  (command.set 6 (crc &&& 0xFF)).set 7 ((crc >>> 8) &&& 0xFF)

/-- Function `readRegisters`. -/
def readRegisters (pzem : PZEM_t) (uart : UART) (response : List Nat) :
    Option (Bool × List Nat) :=
  sendReceive pzem uart (readCommand pzem.addr) 8 response RESPONSE_SIZE

/-- Function `PZEM_ReadAll`: the receive buffer is the cache itself. -/
def PZEM_ReadAll (pzem : PZEM_t) (uart : UART) : Option (Bool × PZEM_t) :=
  (readRegisters pzem uart pzem.lastResponse).map
    fun r => (r.1, { pzem with lastResponse := r.2 })

/-- Command buffer built by `PZEM_ResetEnergy` (lines 196-202). -/
def resetCommand (addr : Nat) : List Nat :=
  let command := [addr, PZEM_RESET_ENERGY, 0, 0]
  let crc := calculateCRC command 2
  (command.set 2 (crc &&& 0xFF)).set 3 ((crc >>> 8) &&& 0xFF)

/-- Objects the `recvBuffer` pointer of `sendReceive` points to in this
driver: the cache `pzem->lastResponse` (passed by `PZEM_ReadAll`) or the
local array `response` of `PZEM_ResetEnergy`. -/
inductive BufRef where
  | lastResponse
  | response
deriving DecidableEq, Repr

/-- Memory a transaction can reach: the handle and the local array
`response[5]` of `PZEM_ResetEnergy`. -/
structure Mem where
  pzem : PZEM_t
  response : List Nat
deriving DecidableEq, Repr

/-- Contents of the object a buffer pointer points to. -/
def Mem.load (m : Mem) : BufRef → List Nat
  | .lastResponse => m.pzem.lastResponse
  | .response => m.response

/-- Memory after the object a buffer pointer points to got new contents. -/
def Mem.store (m : Mem) : BufRef → List Nat → Mem
  | .lastResponse, b => { m with pzem := { m.pzem with lastResponse := b } }
  | .response, b => { m with response := b }

/-- Function `sendReceive` with `recvBuffer` as a pointer into memory: its
only store through a pointer is `recvBuffer[bytesReceived] = ...` (line 65),
so the bytes land in the object `recvBuffer` points to. -/
def sendReceiveAt (m : Mem) (uart : UART) (sendBuffer : List Nat) (sendSize : Nat)
    (recvBuffer : BufRef) (recvSize : Nat) : Option (Bool × Mem) :=
  (sendReceive m.pzem uart sendBuffer sendSize (m.load recvBuffer) recvSize).map
    fun r => (r.1, m.store recvBuffer r.2)

/-- Function `PZEM_ResetEnergy` with its effect on memory: the verdict, and
the handle and the local array after the call.  It passes its local
`response` as receive buffer.  The local `response[5]` is taken as
zero-filled at entry; the loop stores a byte at an index before that index is
read. -/
def PZEM_ResetEnergy_mem (pzem : PZEM_t) (uart : UART) : Option (Bool × Mem) :=
  sendReceiveAt { pzem := pzem, response := List.replicate 5 0 } uart
    (resetCommand pzem.addr) 4 BufRef.response 5

/-- Return value of `PZEM_ResetEnergy`. -/
def PZEM_ResetEnergy (pzem : PZEM_t) (uart : UART) : Option Bool :=
  (PZEM_ResetEnergy_mem pzem uart).map fun r => r.1

/-! ## Accessors -/

/-- Raw value of `PZEM_Voltage`: `(lastResponse[3] << 8) | lastResponse[4]`. -/
def voltageRaw (pzem : PZEM_t) : Nat :=
  ((pzem.lastResponse.getD 3 0 <<< 8) ||| pzem.lastResponse.getD 4 0) % 2 ^ 32

/-- Function `PZEM_Voltage`. -/
def PZEM_Voltage (pzem : PZEM_t) : ℚ := (voltageRaw pzem : ℚ) / 10

/-- Two-register decode shared by `PZEM_Current`, `PZEM_Power` and
`PZEM_Energy`, for the register pair starting at byte `k`: the two `uint16_t`
words and their combination into a `uint32_t`. -/
def raw32 (pzem : PZEM_t) (k : Nat) : Nat :=
  let low_word :=
    ((pzem.lastResponse.getD k 0 <<< 8) ||| pzem.lastResponse.getD (k + 1) 0) % 2 ^ 16
  let high_word :=
    ((pzem.lastResponse.getD (k + 2) 0 <<< 8) ||| pzem.lastResponse.getD (k + 3) 0) % 2 ^ 16
  (((high_word % 2 ^ 32) <<< 16) % 2 ^ 32) ||| low_word

/-- Raw value of `PZEM_Current` (bytes 5..8). -/
def currentRaw (pzem : PZEM_t) : Nat := raw32 pzem 5

/-- Function `PZEM_Current`. -/
def PZEM_Current (pzem : PZEM_t) : ℚ := (currentRaw pzem : ℚ) / 1000

/-- Raw value of `PZEM_Power` (bytes 9..12). -/
def powerRaw (pzem : PZEM_t) : Nat := raw32 pzem 9

/-- Function `PZEM_Power`. -/
def PZEM_Power (pzem : PZEM_t) : ℚ := (powerRaw pzem : ℚ) / 10

/-- Raw value of `PZEM_Energy` (bytes 13..16). -/
def energyRaw (pzem : PZEM_t) : Nat := raw32 pzem 13

/-- Function `PZEM_Energy`. -/
def PZEM_Energy (pzem : PZEM_t) : ℚ := (energyRaw pzem : ℚ) / 1000

/-- Raw value of `PZEM_Frequency`: `(lastResponse[17] << 8) | lastResponse[18]`. -/
def frequencyRaw (pzem : PZEM_t) : Nat :=
  ((pzem.lastResponse.getD 17 0 <<< 8) ||| pzem.lastResponse.getD 18 0) % 2 ^ 32

/-- Function `PZEM_Frequency`. -/
def PZEM_Frequency (pzem : PZEM_t) : ℚ := (frequencyRaw pzem : ℚ) / 10

/-- Raw value of `PZEM_PowerFactor`: `(lastResponse[19] << 8) | lastResponse[20]`. -/
def powerFactorRaw (pzem : PZEM_t) : Nat :=
  ((pzem.lastResponse.getD 19 0 <<< 8) ||| pzem.lastResponse.getD 20 0) % 2 ^ 32

/-- Function `PZEM_PowerFactor`. -/
def PZEM_PowerFactor (pzem : PZEM_t) : ℚ := (powerFactorRaw pzem : ℚ) / 100

/-! ## Definitions used to state the properties -/

/-- Accumulator of `calculateCRC` after absorbing the bytes of `l`, starting
from `crc`. -/
def crcFold (crc : Nat) (l : List Nat) : Nat := l.foldl crcByte crc

/-- Bytes the receive loop takes from the data register during a transaction
with the given timeout and expected size, in arrival order: what the loop
leaves in the first `bytesReceived` positions of a scratch buffer. -/
def received (uart : UART) (timeout recvSize : Nat) : Option (List Nat) :=
  (recvLoop timeout (uart.startTick % 2 ^ 32) recvSize uart.polls
    { recvBuffer := List.replicate recvSize 0, bytesReceived := 0,
      lastByteTime := uart.startTick % 2 ^ 32 }).map
    fun s => s.recvBuffer.take s.bytesReceived

/-- Calls a client can make on an initialised handle. -/
inductive Op where
  | readAll (uart : UART)
  | resetEnergy (uart : UART)
  | voltage
  | current
  | power
  | energy
  | frequency
  | powerFactor

/-- Effect of one call on the handle: the handle after `PZEM_ReadAll`, the
handle after `PZEM_ResetEnergy`; the accessors take the handle, return a
value and store nothing. -/
def step (p : PZEM_t) : Op → Option PZEM_t
  | .readAll uart => (PZEM_ReadAll p uart).map fun r => r.2
  | .resetEnergy uart => (PZEM_ResetEnergy_mem p uart).map fun r => r.2.pzem
  | .voltage => some p
  | .current => some p
  | .power => some p
  | .energy => some p
  | .frequency => some p
  | .powerFactor => some p

/-- Effect of a sequence of calls. -/
def run (p : PZEM_t) : List Op → Option PZEM_t
  | [] => some p
  | op :: ops => (step p op).bind fun q => run q ops

/-- The cache is 25 zero bytes, or 25 bytes whose last two, read
low-byte-first, are the CRC16 of the first 23. -/
def cacheInv (p : PZEM_t) : Prop :=
  p.lastResponse = List.replicate 25 0 ∨
    (p.lastResponse.length = 25 ∧
      p.lastResponse.getD 23 0 + 256 * p.lastResponse.getD 24 0 =
        calculateCRC p.lastResponse 23)

instance (p : PZEM_t) : Decidable (cacheInv p) := by
  unfold cacheInv
  infer_instance

/-- A read transaction that stores at least one byte and then reports
failure. -/
def dirtyFailure (p : PZEM_t) (uart : UART) : Bool :=
  uart.transmit (readCommand p.addr) p.timeout &&
    (match received uart p.timeout 25 with
      | some (_ :: _) => true
      | _ => false) &&
    (match PZEM_ReadAll p uart with
      | some (false, _) => true
      | _ => false)

/-- The call, made in state `p`, is not a `dirtyFailure`. -/
def cleanOp (p : PZEM_t) : Op → Bool
  | .readAll uart => !dirtyFailure p uart
  | _ => true

/-- No `PZEM_ReadAll` of the sequence, started from `p`, is a
`dirtyFailure`. -/
def cleanRun (p : PZEM_t) : List Op → Bool
  | [] => true
  | op :: ops =>
    cleanOp p op &&
    (match step p op with
      | some q => cleanRun q ops
      | none => true)

/-- Reference Modbus-RTU CRC16, one bit: shift right by one and XOR `0xA001`
when the bit shifted out was 1. -/
def refShift (acc : Nat) : Nat :=
  if acc % 2 = 1 then (acc / 2) ^^^ 0xA001 else acc / 2

/-- Reference Modbus-RTU CRC16, one byte: the byte is XORed into the low 8
bits of the accumulator, the high 8 bits are kept. -/
def refAbsorb (acc b : Nat) : Nat := 256 * (acc / 256) + ((acc % 256) ^^^ b)

/-- Reference Modbus-RTU CRC16 as the specification words it: accumulator
`0xFFFF`, per byte an XOR into the low 8 bits and 8 shifts, no final XOR. -/
def modbusCRC16 (bytes : List Nat) : Nat :=
  bytes.foldl (fun acc b => refShift^[8] (refAbsorb acc b)) 0xFFFF

/-! ## Concrete handles and transports -/

/-- A handle just initialised for bus address 1. -/
def handle0 : PZEM_t := PZEM_Init ⟨0, 0, 0, []⟩ 7 1

/-- A transport on which transmission succeeds and the bytes of `bytes` are
ready one per poll, without the tick advancing. -/
def uartOfBytes (bytes : List Nat) : UART :=
  { transmit := fun _ _ => true, startTick := 0,
    polls := bytes.map fun b => ⟨true, b, 0, 0, 0⟩ }

/-- A transport that delivers the single byte `0x01` and then stays silent:
at the second poll the tick reads 60. -/
def uartOneByte : UART :=
  { transmit := fun _ _ => true, startTick := 0,
    polls := [⟨true, 0x01, 0, 0, 0⟩, ⟨false, 0, 0, 60, 60⟩] }

/-- A transport that delivers nothing: at the first poll the tick reads 201. -/
def uartSilent : UART :=
  { transmit := fun _ _ => true, startTick := 0,
    polls := [⟨false, 0, 0, 201, 201⟩] }

/-- A transport that delivers the single byte `0x77` and then stays silent:
at the second poll the tick reads 60. -/
def uartStray : UART :=
  { transmit := fun _ _ => true, startTick := 0,
    polls := [⟨true, 0x77, 0, 0, 0⟩, ⟨false, 0, 0, 60, 60⟩] }

/-- The handle `handle0` after a read over `uartOneByte`. -/
def handle1 : PZEM_t := { handle0 with lastResponse := 1 :: List.replicate 24 0 }

/-- A read response for address 1: 230.4 V, 50.0 Hz, power factor 0.50, with
its CRC. -/
def goodFrame : List Nat :=
  [0x01, 0x04, 0x14, 0x09, 0x00, 0x03, 0xE8, 0x00, 0x00, 0x08, 0xFC, 0x00, 0x00,
   0x00, 0x7B, 0x00, 0x00, 0x01, 0xF4, 0x00, 0x32, 0x00, 0x00, 0x28, 0xA5]

/-- Local variables of the receive loop after the polls `ps` when the loop is
still running after them: none of them took the `break` and the count is
still below `recvSize`; `none` when the loop ended among them. -/
def afterPolls (timeout startTime recvSize : Nat) : List Poll → RxState → Option RxState
  | [], s => if s.bytesReceived < recvSize then some s else none
  | p :: ps, s =>
    if s.bytesReceived < recvSize then
      if (recvStep timeout startTime s p).2 then none
      else afterPolls timeout startTime recvSize ps (recvStep timeout startTime s p).1
    else none

/-- The handle `handle0` with the frame `goodFrame` in its cache. -/
def handleGood : PZEM_t := { handle0 with lastResponse := goodFrame }

/-- A cache whose current registers hold low word `00 00` (offsets 5, 6) and
high word `00 64` (offsets 7, 8). -/
def handleHigh : PZEM_t := { handle0 with lastResponse := (List.replicate 25 0).set 8 0x64 }

/-- A cache whose current registers hold low word `00 64` (offsets 5, 6) and
high word `00 00` (offsets 7, 8). -/
def handleLow : PZEM_t := { handle0 with lastResponse := (List.replicate 25 0).set 6 0x64 }

/-- A 5-byte acknowledgement of the energy reset with a matching CRC. -/
def ackFrame : List Nat := [0x01, 0x42, 0x00, 0x10, 0xA0]

/-- A 25-byte frame with a matching CRC whose header is `02 05 13`: not the
address of `handle0`, not function code `04`, not byte count `14`. -/
def oddFrame : List Nat :=
  [0x02, 0x05, 0x13, 0x09, 0x00, 0x03, 0xE8, 0x00, 0x00, 0x08, 0xFC, 0x00, 0x00,
   0x00, 0x7B, 0x00, 0x00, 0x01, 0xF4, 0x00, 0x32, 0x00, 0x00, 0xDA, 0x3B]

/-- A transport whose tick counter wraps during the transaction: reception
starts at tick `0xFFFFFFF0`, one byte arrives at `0xFFFFFFFA`, the next poll
reads `0x00000030`. -/
def uartWrap : UART :=
  { transmit := fun _ _ => true, startTick := 0xFFFFFFF0,
    polls := [⟨true, 0x01, 0xFFFFFFFA, 0xFFFFFFFA, 0xFFFFFFFA⟩,
      ⟨false, 0, 0, 0x00000030, 0x00000030⟩] }

/-! ## Lemmas on the CRC and the receive loop -/

set_option maxRecDepth 100000

theorem crcBit_lt {x : Nat} (hx : x < 65536) : crcBit x < 65536 := by
  have h1 : x >>> 1 < 2 ^ 16 := by
    rw [Nat.shiftRight_eq_div_pow]; omega
  unfold crcBit
  split
  · exact Nat.xor_lt_two_pow h1 (by norm_num)
  · exact h1

theorem shr_testBit15 {x : Nat} (hx : x < 65536) : (x >>> 1).testBit 15 = false := by
  apply Nat.testBit_lt_two_pow
  rw [Nat.shiftRight_eq_div_pow]; omega

theorem crcBit_inj {x y : Nat} (hx : x < 65536) (hy : y < 65536)
    (h : crcBit x = crcBit y) : x = y := by
  have hx1 : x &&& 1 = x % 2 := by
    simp
  have hy1 : y &&& 1 = y % 2 := by
    simp
  have hsx := shr_testBit15 hx
  have hsy := shr_testBit15 hy
  have hA : (0xA001 : Nat).testBit 15 = true := by decide
  unfold crcBit at h
  rw [hx1, hy1] at h
  have hdx : x >>> 1 = x / 2 := by rw [Nat.shiftRight_eq_div_pow]
  have hdy : y >>> 1 = y / 2 := by rw [Nat.shiftRight_eq_div_pow]
  by_cases cx : x % 2 ≠ 0 <;> by_cases cy : y % 2 ≠ 0
  · rw [if_pos cx, if_pos cy] at h
    have := Nat.xor_left_injective h
    simp only at this
    omega
  · rw [if_pos cx, if_neg cy] at h
    have := congrArg (fun z => z.testBit 15) h
    simp [hsx, hsy, hA] at this
  · rw [if_neg cx, if_pos cy] at h
    have := congrArg (fun z => z.testBit 15) h
    simp [hsx, hsy, hA] at this
  · rw [if_neg cx, if_neg cy] at h
    omega

theorem crcBits_lt (j : Nat) {x : Nat} (hx : x < 65536) : crcBits j x < 65536 := by
  induction j generalizing x with
  | zero => exact hx
  | succ j ih => exact ih (crcBit_lt hx)

theorem crcBits_inj (j : Nat) {x y : Nat} (hx : x < 65536) (hy : y < 65536)
    (h : crcBits j x = crcBits j y) : x = y := by
  induction j generalizing x y with
  | zero => exact h
  | succ j ih => exact crcBit_inj hx hy (ih (crcBit_lt hx) (crcBit_lt hy) h)

theorem crcByte_lt {crc b : Nat} (hc : crc < 65536) (hb : b < 65536) :
    crcByte crc b < 65536 :=
  crcBits_lt 8 (Nat.xor_lt_two_pow (n := 16) hc hb)

theorem crcByte_inj_left {x y b : Nat} (hx : x < 65536) (hy : y < 65536) (hb : b < 65536)
    (h : crcByte x b = crcByte y b) : x = y :=
  Nat.xor_left_injective
    (crcBits_inj 8 (Nat.xor_lt_two_pow (n := 16) hx hb) (Nat.xor_lt_two_pow (n := 16) hy hb) h)

theorem crcByte_inj_right {x b c : Nat} (hx : x < 65536) (hb : b < 65536) (hc : c < 65536)
    (h : crcByte x b = crcByte x c) : b = c :=
  Nat.xor_right_injective
    (crcBits_inj 8 (Nat.xor_lt_two_pow (n := 16) hx hb) (Nat.xor_lt_two_pow (n := 16) hx hc) h)

theorem crcFold_lt (l : List Nat) (hl : ∀ b ∈ l, b < 256) {x : Nat} (hx : x < 65536) :
    crcFold x l < 65536 := by
  induction l generalizing x with
  | nil => exact hx
  | cons a t ih =>
    have ha : a < 256 := hl a (List.mem_cons_self a t)
    exact ih (fun b hb => hl b (List.mem_cons_of_mem a hb)) (crcByte_lt hx (by omega))

theorem crcFold_inj (l : List Nat) (hl : ∀ b ∈ l, b < 256) {x y : Nat} (hx : x < 65536)
    (hy : y < 65536) (h : crcFold x l = crcFold y l) : x = y := by
  induction l generalizing x y with
  | nil => exact h
  | cons a t ih =>
    have ha : a < 256 := hl a (List.mem_cons_self a t)
    have ha2 : a < 65536 := by omega
    exact crcByte_inj_left hx hy ha2
      (ih (fun b hb => hl b (List.mem_cons_of_mem a hb)) (crcByte_lt hx ha2)
        (crcByte_lt hy ha2) h)

theorem crcFold_append (x : Nat) (l m : List Nat) :
    crcFold x (l ++ m) = crcFold (crcFold x l) m := by
  simp [crcFold]

theorem range_map_getD (data : List Nat) (len : Nat) (h : len ≤ data.length) :
    (List.range len).map (fun i => data.getD i 0) = data.take len := by
  apply List.ext_getElem?
  intro n
  by_cases hn : n < len
  · have : n < data.length := by omega
    simp [List.getElem?_map, List.getElem?_range hn, List.getElem?_take, hn, this]
  · simp [List.getElem?_map, List.getElem?_take, hn]
    omega

theorem calculateCRC_eq_crcFold (data : List Nat) (len : Nat) (h : len ≤ data.length) :
    calculateCRC data len = crcFold 0xFFFF (data.take len) := by
  rw [← range_map_getD data len h]
  simp [calculateCRC, crcFold, List.foldl_map]

theorem calculateCRC_lt (data : List Nat) (len : Nat) (hd : ∀ b ∈ data, b < 256) :
    calculateCRC data len < 65536 := by
  have : calculateCRC data len = crcFold 0xFFFF ((List.range len).map (fun i => data.getD i 0)) := by
    simp [calculateCRC, crcFold, List.foldl_map]
  rw [this]
  apply crcFold_lt _ _ (by norm_num)
  intro b hb
  rw [List.mem_map] at hb
  obtain ⟨i, _, rfl⟩ := hb
  by_cases hi : i < data.length
  · rw [List.getD_eq_getElem _ _ hi]
    exact hd _ (List.getElem_mem hi)
  · rw [List.getD_eq_default _ _ (by omega)]
    norm_num

theorem take_set_succ (b : List Nat) (n v : Nat) (h : n < b.length) :
    (b.set n v).take (n + 1) = b.take n ++ [v] := by
  rw [List.take_succ]
  simp only [List.getElem?_set, h, if_true, Option.toList]
  rw [List.set_take, List.set_eq_of_length_le (by simp)]

theorem drop_set_succ (b : List Nat) (n k v : Nat) :
    (b.set n v).drop (n + 1 + k) = b.drop (n + 1 + k) := by
  rw [List.drop_set_of_lt _ _ (by omega)]

/-- Characterisation of a terminating run of the receive loop. -/
theorem recvLoop_spec (timeout startTime recvSize : Nat) (hsz : recvSize ≤ 255)
    (ps : List Poll) :
    ∀ (b : List Nat) (n l : Nat) (t : RxState), n ≤ recvSize → recvSize ≤ b.length →
      recvLoop timeout startTime recvSize ps ⟨b, n, l⟩ = some t →
      ∃ bytes : List Nat,
        t.bytesReceived = n + bytes.length ∧ t.bytesReceived ≤ recvSize ∧
        (∀ x ∈ bytes, x < 256) ∧
        ∀ b2 : List Nat, recvSize ≤ b2.length →
          recvLoop timeout startTime recvSize ps ⟨b2, n, l⟩ =
            some ⟨b2.take n ++ bytes ++ b2.drop (n + bytes.length), n + bytes.length,
              t.lastByteTime⟩ := by
  induction ps with
  | nil =>
    intro b n l t hn hb h
    simp only [recvLoop] at h
    split at h
    · exact absurd h (by simp)
    · rename_i hlt
      simp only [Option.some.injEq] at h
      subst h
      refine ⟨[], by simp, by simpa using hn, by simp, ?_⟩
      intro b2 _
      simp only [recvLoop]
      rw [if_neg hlt]
      simp
  | cons p ps ih =>
    intro b n l t hn hb h
    simp only [recvLoop] at h
    by_cases hlt : n < recvSize
    · simp only [hlt, if_true] at h
      by_cases hrx : p.rxne = true
      · -- a byte is stored at index n
        have hstep : ∀ b' : List Nat, recvByte ⟨b', n, l⟩ p =
            ⟨b'.set n (p.dr % 256), n + 1, p.tickByte % 2 ^ 32⟩ := by
          intro b'
          have : (n + 1) % 256 = n + 1 := Nat.mod_eq_of_lt (by omega)
          simp [recvByte, hrx, this]
        have hto : ∀ b' : List Nat, timedOut timeout startTime (recvByte ⟨b', n, l⟩ p) p =
            timedOut timeout startTime (recvByte ⟨b, n, l⟩ p) p := by
          intro b'
          simp [hstep, timedOut]
        simp only [recvStep] at h
        by_cases hbrk : timedOut timeout startTime (recvByte ⟨b, n, l⟩ p) p = true
        · simp only [hbrk, if_true, Option.some.injEq] at h
          subst h
          refine ⟨[p.dr % 256], by simp [hstep], by simp [hstep]; omega, ?_, ?_⟩
          · intro x hx
            simp only [List.mem_singleton] at hx
            subst hx
            exact Nat.mod_lt _ (by norm_num)
          · intro b2 hb2
            simp only [recvLoop, recvStep, hlt, if_true, hto b2, hbrk]
            rw [hstep b2, hstep b]
            have h1 : (b2.set n (p.dr % 256)) =
                b2.take n ++ [p.dr % 256] ++ b2.drop (n + 1) := by
              rw [List.set_eq_take_append_cons_drop]
              simp [show n < b2.length by omega]
            simp [h1]
        · simp only [hbrk, Bool.false_eq_true, if_false] at h
          rw [hstep b] at h
          obtain ⟨bytes, h1, h2, h3, h4⟩ :=
            ih (b.set n (p.dr % 256)) (n + 1) (p.tickByte % 2 ^ 32) t (by omega)
              (by simpa using hb) h
          refine ⟨(p.dr % 256) :: bytes, by simp [h1]; omega, h2, ?_, ?_⟩
          · intro x hx
            rcases List.mem_cons.mp hx with rfl | hx
            · exact Nat.mod_lt _ (by norm_num)
            · exact h3 x hx
          · intro b2 hb2
            simp only [recvLoop, recvStep, hlt, if_true, hto b2, hbrk, Bool.false_eq_true,
              if_false]
            rw [hstep b2]
            rw [h4 (b2.set n (p.dr % 256)) (by simpa using hb2)]
            rw [take_set_succ b2 n _ (by omega), drop_set_succ]
            simp [Nat.add_assoc, Nat.add_comm 1]
      · -- no byte in this iteration
        have hstep : ∀ b' : List Nat, recvByte ⟨b', n, l⟩ p = ⟨b', n, l⟩ := by
          intro b'
          simp [recvByte, hrx]
        have hto : ∀ b' : List Nat, timedOut timeout startTime (recvByte ⟨b', n, l⟩ p) p =
            timedOut timeout startTime (recvByte ⟨b, n, l⟩ p) p := by
          intro b'
          simp [hstep, timedOut]
        simp only [recvStep] at h
        by_cases hbrk : timedOut timeout startTime (recvByte ⟨b, n, l⟩ p) p = true
        · simp only [hbrk, if_true, Option.some.injEq] at h
          subst h
          refine ⟨[], by simp [hstep], by simp [hstep]; omega, by simp, ?_⟩
          intro b2 hb2
          simp only [recvLoop, recvStep, hlt, if_true, hto b2, hbrk]
          simp [hstep]
        · simp only [hbrk, Bool.false_eq_true, if_false] at h
          rw [hstep b] at h
          obtain ⟨bytes, h1, h2, h3, h4⟩ := ih b n l t hn hb h
          refine ⟨bytes, h1, h2, h3, ?_⟩
          intro b2 hb2
          simp only [recvLoop, recvStep, hlt, if_true, hto b2, hbrk, Bool.false_eq_true,
            if_false]
          rw [hstep b2]
          exact h4 b2 hb2
    · simp only [hlt, if_false, Option.some.injEq] at h
      subst h
      refine ⟨[], by simp, by simpa using hn, by simp, ?_⟩
      intro b2 _
      simp only [recvLoop]
      rw [if_neg hlt]
      simp


/-- The receive loop ends on every record that contains a poll at which the
overall guard fires. -/
theorem recvLoop_isSome (timeout startTime recvSize : Nat) (ps : List Poll)
    (h : ∃ p ∈ ps, sub32 p.tickTotal startTime > timeout) :
    ∀ s : RxState, (recvLoop timeout startTime recvSize ps s).isSome = true := by
  induction ps with
  | nil =>
    obtain ⟨p, hp, _⟩ := h
    exact absurd hp (List.not_mem_nil p)
  | cons q qs ih =>
    intro s
    simp only [recvLoop]
    by_cases hlt : s.bytesReceived < recvSize
    · rw [if_pos hlt]
      by_cases hbrk : (recvStep timeout startTime s q).2 = true
      · rw [if_pos hbrk]; rfl
      · rw [if_neg hbrk]
        apply ih
        obtain ⟨p, hp, hgt⟩ := h
        rcases List.mem_cons.mp hp with rfl | hp
        · exfalso
          apply hbrk
          simp [recvStep, timedOut, hgt]
        · exact ⟨p, hp, hgt⟩
    · rw [if_neg hlt]; rfl

/-- The bytes received are bytes, and there are at most `recvSize` of them. -/
theorem received_bounds (uart : UART) (timeout recvSize : Nat) (hsz : recvSize ≤ 255)
    (r : List Nat) (h : received uart timeout recvSize = some r) :
    r.length ≤ recvSize ∧ ∀ x ∈ r, x < 256 := by
  unfold received at h
  cases hz : recvLoop timeout (uart.startTick % 2 ^ 32) recvSize uart.polls
      ⟨List.replicate recvSize 0, 0, uart.startTick % 2 ^ 32⟩ with
  | none => rw [hz] at h; simp at h
  | some t =>
    obtain ⟨bytes, h1, h2, h3, h4⟩ :=
      recvLoop_spec timeout (uart.startTick % 2 ^ 32) recvSize hsz uart.polls
        (List.replicate recvSize 0) 0 (uart.startTick % 2 ^ 32) t (Nat.zero_le _)
        (by simp) hz
    have h5 := h4 (List.replicate recvSize 0) (by simp)
    rw [h5] at h
    simp only [Option.map_some', Option.some.injEq] at h
    simp only [List.take_zero, List.nil_append, Nat.zero_add] at h
    rw [List.take_left'] at h
    · subst h
      exact ⟨by omega, h3⟩
    · rfl

/-- Outcome of `sendReceive` after a successful transmission, in terms of the
bytes received, for a receive buffer that may extend beyond `rs` bytes. -/
theorem sendReceive_eq_ge (pzem : PZEM_t) (uart : UART) (sb : List Nat) (ss : Nat)
    (rb : List Nat) (rs : Nat) (hsz : rs ≤ 255) (hpos : 0 < rs) (hlen : rs ≤ rb.length)
    (htx : uart.transmit (sb.take ss) pzem.timeout = true) :
    sendReceive pzem uart sb ss rb rs =
      (received uart pzem.timeout rs).map fun r =>
        (decide (r.length = rs) && verifyCRC (r ++ rb.drop r.length) rs,
          r ++ rb.drop r.length) := by
  unfold sendReceive received
  rw [htx]
  simp only [Bool.true_eq_false, if_false]
  cases hz : recvLoop pzem.timeout (uart.startTick % 2 ^ 32) rs uart.polls
      ⟨List.replicate rs 0, 0, uart.startTick % 2 ^ 32⟩ with
  | none =>
    cases hr : recvLoop pzem.timeout (uart.startTick % 2 ^ 32) rs uart.polls
        ⟨rb, 0, uart.startTick % 2 ^ 32⟩ with
    | none => rfl
    | some t =>
      obtain ⟨bytes, _, _, _, h4⟩ :=
        recvLoop_spec pzem.timeout (uart.startTick % 2 ^ 32) rs hsz uart.polls
          rb 0 (uart.startTick % 2 ^ 32) t (Nat.zero_le _) (by omega) hr
      have h5 := h4 (List.replicate rs 0) (by simp)
      rw [h5] at hz
      exact absurd hz (by simp)
  | some t =>
    obtain ⟨bytes, h1, h2, h3, h4⟩ :=
      recvLoop_spec pzem.timeout (uart.startTick % 2 ^ 32) rs hsz uart.polls
        (List.replicate rs 0) 0 (uart.startTick % 2 ^ 32) t (Nat.zero_le _)
        (by simp) hz
    have h5 := h4 (List.replicate rs 0) (by simp)
    have h6 := h4 rb hlen
    rw [h5] at hz
    simp only [Option.some.injEq] at hz
    have e1 : t.recvBuffer.take t.bytesReceived = bytes := by
      rw [← hz]
      simp
    rw [h6]
    simp only [List.take_zero, List.nil_append, Nat.zero_add, Option.map_some', e1]
    have hle : bytes.length ≤ rs := by omega
    by_cases h0 : bytes.length = 0
    · have : bytes = [] := List.length_eq_zero.mp h0
      subst this
      have : ¬ (0 = rs) := by omega
      simp [this]
    · by_cases hlt : bytes.length < rs
      · have : ¬ (bytes.length = rs) := by omega
        simp [h0, hlt, this]
      · have : bytes.length = rs := by omega
        simp only [h0, hlt, if_false, this, decide_True, Bool.true_and]
        have hne : ¬ rs = 0 := by omega
        cases verifyCRC (bytes ++ List.drop rs rb) rs <;> simp [hne]

/-- Outcome of `sendReceive` after a successful transmission, in terms of the
bytes received. -/
theorem sendReceive_eq (pzem : PZEM_t) (uart : UART) (sb : List Nat) (ss : Nat)
    (rb : List Nat) (rs : Nat) (hsz : rs ≤ 255) (hpos : 0 < rs) (hlen : rb.length = rs)
    (htx : uart.transmit (sb.take ss) pzem.timeout = true) :
    sendReceive pzem uart sb ss rb rs =
      (received uart pzem.timeout rs).map fun r =>
        (decide (r.length = rs) && verifyCRC (r ++ rb.drop r.length) rs,
          r ++ rb.drop r.length) :=
  sendReceive_eq_ge pzem uart sb ss rb rs hsz hpos (by omega) htx

theorem readCommand_length (a : Nat) : (readCommand a).length = 8 := by
  simp [readCommand]

theorem resetCommand_length (a : Nat) : (resetCommand a).length = 4 := by
  simp [resetCommand]

/-- Outcome of `PZEM_ReadAll` after a successful transmission, when the list
standing for the cache also holds the memory that follows it. -/
theorem readAll_eq_ge (h : PZEM_t) (uart : UART) (hlen : 25 ≤ h.lastResponse.length)
    (htx : uart.transmit (readCommand h.addr) h.timeout = true) :
    PZEM_ReadAll h uart =
      (received uart h.timeout 25).map fun r =>
        (decide (r.length = 25) && verifyCRC (r ++ h.lastResponse.drop r.length) 25,
          { h with lastResponse := r ++ h.lastResponse.drop r.length }) := by
  have ht : (readCommand h.addr).take 8 = readCommand h.addr :=
    List.take_of_length_le (by rw [readCommand_length])
  unfold PZEM_ReadAll readRegisters RESPONSE_SIZE
  rw [sendReceive_eq_ge h uart (readCommand h.addr) 8 h.lastResponse 25 (by norm_num)
    (by norm_num) hlen (by rw [ht]; exact htx)]
  cases received uart h.timeout 25 <;> simp

/-- Outcome of `PZEM_ReadAll` after a successful transmission. -/
theorem readAll_eq (h : PZEM_t) (uart : UART) (hlen : h.lastResponse.length = 25)
    (htx : uart.transmit (readCommand h.addr) h.timeout = true) :
    PZEM_ReadAll h uart =
      (received uart h.timeout 25).map fun r =>
        (decide (r.length = 25) && verifyCRC (r ++ h.lastResponse.drop r.length) 25,
          { h with lastResponse := r ++ h.lastResponse.drop r.length }) :=
  readAll_eq_ge h uart (by omega) htx

/-- Outcome of `PZEM_ReadAll` when the transmission fails. -/
theorem readAll_txfail (h : PZEM_t) (uart : UART)
    (htx : uart.transmit (readCommand h.addr) h.timeout = false) :
    PZEM_ReadAll h uart = some (false, h) := by
  have ht : (readCommand h.addr).take 8 = readCommand h.addr :=
    List.take_of_length_le (by rw [readCommand_length])
  simp [PZEM_ReadAll, readRegisters, sendReceive, ht, htx]

theorem shl8_or (hi lo : Nat) (h : lo < 256) : (hi <<< 8) ||| lo = 256 * hi + lo := by
  rw [Nat.shiftLeft_eq, Nat.mul_comm]
  exact (Nat.mul_add_lt_is_or (i := 8) h hi).symm

theorem and_ff (c : Nat) : c &&& 0xFF = c % 256 :=
  Nat.and_pow_two_sub_one_eq_mod c 8

theorem shr8 (c : Nat) : c >>> 8 = c / 256 := by
  rw [Nat.shiftRight_eq_div_pow]

theorem getD_lt (l : List Nat) (i : Nat) (h : ∀ b ∈ l, b < 256) : l.getD i 0 < 256 := by
  by_cases hi : i < l.length
  · rw [List.getD_eq_getElem _ _ hi]
    exact h _ (List.getElem_mem hi)
  · rw [List.getD_eq_default _ _ (by omega)]
    norm_num

/-- The CRC check in arithmetic form, for a buffer of bytes. -/
theorem verifyCRC_true_iff (buf : List Nat) (n : Nat) (hb : ∀ b ∈ buf, b < 256) :
    verifyCRC buf n = true ↔
      buf.getD (n - 2) 0 + 256 * buf.getD (n - 1) 0 = calculateCRC buf (n - 2) := by
  have hlo := getD_lt buf (n - 2) hb
  have hhi := getD_lt buf (n - 1) hb
  simp only [verifyCRC]
  rw [shl8_or _ _ hlo, Nat.mod_eq_of_lt (by omega)]
  constructor
  · intro h
    by_contra hne
    rw [if_pos (by omega)] at h
    exact absurd h (by simp)
  · intro h
    rw [if_neg (by omega)]

/-- Memory after `PZEM_ResetEnergy`: the handle as it was, and the final
contents of the receive buffer in the local array. -/
theorem resetEnergy_mem_eq (p : PZEM_t) (uart : UART) :
    PZEM_ResetEnergy_mem p uart =
      (sendReceive p uart (resetCommand p.addr) 4 (List.replicate 5 0) 5).map
        fun r => (r.1, { pzem := p, response := r.2 }) := by
  unfold PZEM_ResetEnergy_mem sendReceiveAt
  simp only [Mem.load, Mem.store]

/-- Verdict of `PZEM_ResetEnergy` as the verdict of its `sendReceive` call. -/
theorem resetEnergy_verdict (p : PZEM_t) (uart : UART) :
    PZEM_ResetEnergy p uart =
      (sendReceive p uart (resetCommand p.addr) 4 (List.replicate 5 0) 5).map
        fun r => r.1 := by
  unfold PZEM_ResetEnergy
  rw [resetEnergy_mem_eq]
  cases sendReceive p uart (resetCommand p.addr) 4 (List.replicate 5 0) 5 <;> rfl

/-- Handle after `PZEM_ResetEnergy`, when the call returns. -/
theorem step_resetEnergy (p : PZEM_t) (uart : UART) :
    step p (Op.resetEnergy uart) = (PZEM_ResetEnergy p uart).map fun _ => p := by
  simp only [step]
  rw [resetEnergy_verdict, resetEnergy_mem_eq]
  cases sendReceive p uart (resetCommand p.addr) 4 (List.replicate 5 0) 5 <;> rfl

/-- One call that is not a dirty failure preserves the cache invariant. -/
theorem step_cacheInv (q q' : PZEM_t) (op : Op) (hinv : cacheInv q)
    (hstep : step q op = some q')
    (hclean : cleanOp q op = true) : cacheInv q' := by
  have hlen : q.lastResponse.length = 25 := by
    rcases hinv with h | h
    · rw [h]; simp
    · exact h.1
  cases op with
  | readAll uart =>
    simp only [step] at hstep
    simp only [cleanOp, Bool.not_eq_true'] at hclean
    cases htx : uart.transmit (readCommand q.addr) q.timeout with
    | false =>
      rw [readAll_txfail q uart htx] at hstep
      simp only [Option.map_some', Option.some.injEq] at hstep
      subst hstep
      exact hinv
    | true =>
      have hra := readAll_eq q uart hlen htx
      unfold dirtyFailure at hclean
      rw [htx, hra] at hclean
      rw [hra] at hstep
      cases hr : received uart q.timeout 25 with
      | none => rw [hr] at hstep; simp at hstep
      | some r =>
        rw [hr] at hstep hclean
        simp only [Option.map_some', Option.some.injEq] at hstep
        have hb := received_bounds uart q.timeout 25 (by norm_num) r hr
        cases r with
        | nil =>
          subst hstep
          simpa using hinv
        | cons x xs =>
          simp only [Option.map_some', Bool.true_and] at hclean
          cases hok : (decide ((x :: xs).length = 25) &&
              verifyCRC ((x :: xs) ++ q.lastResponse.drop (x :: xs).length) 25) with
          | false => rw [hok] at hclean; simp at hclean
          | true =>
            simp only [Bool.and_eq_true, decide_eq_true_eq] at hok
            obtain ⟨h25, hv⟩ := hok
            have hdrop : q.lastResponse.drop (x :: xs).length = [] :=
              List.drop_of_length_le (by omega)
            rw [hdrop, List.append_nil] at hv hstep
            subst hstep
            right
            refine ⟨h25, ?_⟩
            exact (verifyCRC_true_iff (x :: xs) 25 hb.2).mp hv
  | resetEnergy uart =>
    rw [step_resetEnergy] at hstep
    cases hre : PZEM_ResetEnergy q uart with
    | none => rw [hre] at hstep; simp at hstep
    | some b =>
      rw [hre] at hstep
      simp only [Option.map_some', Option.some.injEq] at hstep
      subst hstep
      exact hinv
  | voltage => simp only [step, Option.some.injEq] at hstep; subst hstep; exact hinv
  | current => simp only [step, Option.some.injEq] at hstep; subst hstep; exact hinv
  | power => simp only [step, Option.some.injEq] at hstep; subst hstep; exact hinv
  | energy => simp only [step, Option.some.injEq] at hstep; subst hstep; exact hinv
  | frequency => simp only [step, Option.some.injEq] at hstep; subst hstep; exact hinv
  | powerFactor => simp only [step, Option.some.injEq] at hstep; subst hstep; exact hinv

/-- A clean run preserves the cache invariant. -/
theorem run_cacheInv (ops : List Op) :
    ∀ q p : PZEM_t, cacheInv q → run q ops = some p → cleanRun q ops = true →
      cacheInv p := by
  induction ops with
  | nil =>
    intro q p hinv hrun _
    simp only [run, Option.some.injEq] at hrun
    subst hrun
    exact hinv
  | cons op ops ih =>
    intro q p hinv hrun hclean
    simp only [run] at hrun
    cases hs : step q op with
    | none => rw [hs] at hrun; simp at hrun
    | some q' =>
      rw [hs] at hrun
      simp only [Option.some_bind] at hrun
      simp only [cleanRun, Bool.and_eq_true] at hclean
      rw [hs] at hclean
      exact ih q' p (step_cacheInv q q' op hinv hs hclean.1) hrun hclean.2

theorem crcFold_cons (x a : Nat) (t : List Nat) :
    crcFold x (a :: t) = crcFold (crcByte x a) t := rfl

/-- Replacing one byte of a list by a different byte changes the accumulator. -/
theorem crcFold_set_ne (l : List Nat) (i v : Nat) (hi : i < l.length)
    (hbl : ∀ b ∈ l, b < 256) (hv : v < 256) (hne : v ≠ l.getD i 0) {x : Nat}
    (hx : x < 65536) : crcFold x (l.set i v) ≠ crcFold x l := by
  have hset : l.set i v = l.take i ++ v :: l.drop (i + 1) := by
    rw [List.set_eq_take_append_cons_drop, if_pos hi]
  have hl : l = l.take i ++ l[i] :: l.drop (i + 1) := by
    conv_lhs => rw [← List.take_append_drop i l, List.drop_eq_getElem_cons hi]
  have hgi : l.getD i 0 = l[i] := List.getD_eq_getElem _ _ hi
  rw [hgi] at hne
  have hli : l[i] < 256 := hbl _ (List.getElem_mem hi)
  intro heq
  rw [hset] at heq
  conv_rhs at heq => rw [hl]
  rw [crcFold_append, crcFold_append, crcFold_cons, crcFold_cons] at heq
  have hpre : crcFold x (l.take i) < 65536 :=
    crcFold_lt _ (fun b hm => hbl b (List.mem_of_mem_take hm)) hx
  have hpost : ∀ b ∈ l.drop (i + 1), b < 256 := fun b hm => hbl b (List.mem_of_mem_drop hm)
  have h1 := crcFold_inj _ hpost (crcByte_lt hpre (by omega)) (crcByte_lt hpre (by omega)) heq
  exact hne (crcByte_inj_right hpre (by omega) (by omega) h1)

/-- Changing one of the first `len` bytes of a buffer changes its CRC. -/
theorem calculateCRC_set_ne (buf : List Nat) (len i v : Nat) (hlen : len ≤ buf.length)
    (hb : ∀ b ∈ buf, b < 256) (hi : i < len) (hv : v < 256) (hne : v ≠ buf.getD i 0) :
    calculateCRC (buf.set i v) len ≠ calculateCRC buf len := by
  rw [calculateCRC_eq_crcFold _ len (by simpa using hlen), calculateCRC_eq_crcFold _ len hlen,
    List.set_take]
  apply crcFold_set_ne _ _ _ (by simp; omega)
    (fun b hm => hb b (List.mem_of_mem_take hm)) hv _ (by norm_num)
  have : (buf.take len).getD i 0 = buf.getD i 0 := by
    simp [List.getElem?_take, hi]
  rw [this]
  exact hne

theorem crcBit_eq_refShift (x : Nat) : crcBit x = refShift x := by
  have h1 : x &&& 1 = x % 2 := by simp
  have h2 : x >>> 1 = x / 2 := by rw [Nat.shiftRight_eq_div_pow]
  unfold crcBit refShift
  rw [h1, h2]
  by_cases h : x % 2 = 1
  · rw [if_pos (by omega), if_pos h]
  · rw [if_neg (by omega), if_neg h]

theorem crcBits_eq_iterate (j x : Nat) : crcBits j x = refShift^[j] x := by
  induction j generalizing x with
  | zero => rfl
  | succ j ih =>
    rw [Function.iterate_succ_apply, ← crcBit_eq_refShift]
    exact ih (crcBit x)

/-- XOR with a byte touches the low 8 bits only. -/
theorem xor_byte_eq_refAbsorb (acc b : Nat) (hb : b < 256) : acc ^^^ b = refAbsorb acc b := by
  unfold refAbsorb
  have hlow : (acc % 2 ^ 8) ^^^ b < 2 ^ 8 :=
    Nat.xor_lt_two_pow (Nat.mod_lt _ (by norm_num)) hb
  apply Nat.eq_of_testBit_eq
  intro j
  have h256 : (256 : Nat) = 2 ^ 8 := rfl
  rw [h256] at hb
  rw [h256, Nat.testBit_mul_pow_two_add _ hlow, Nat.testBit_xor]
  by_cases hj : j < 8
  · rw [if_pos hj, Nat.testBit_xor, Nat.testBit_mod_two_pow]
    simp [hj]
  · have hbj : b.testBit j = false := by
      apply Nat.testBit_lt_two_pow
      exact lt_of_lt_of_le hb (Nat.pow_le_pow_right (by norm_num) (by omega))
    have hdiv : (acc / 2 ^ 8).testBit (j - 8) = acc.testBit j := by
      rw [← Nat.shiftRight_eq_div_pow, Nat.testBit_shiftRight]
      congr 1
      omega
    rw [if_neg hj, hbj, hdiv]
    simp

theorem calculateCRC_congr (d1 d2 : List Nat) (len : Nat)
    (h : d1.take len = d2.take len) (h1 : len ≤ d1.length) (h2 : len ≤ d2.length) :
    calculateCRC d1 len = calculateCRC d2 len := by
  rw [calculateCRC_eq_crcFold d1 len h1, calculateCRC_eq_crcFold d2 len h2, h]

theorem crcByte_eq_ref (acc b : Nat) (hb : b < 256) :
    crcByte acc b = refShift^[8] (refAbsorb acc b) := by
  unfold crcByte
  rw [crcBits_eq_iterate, xor_byte_eq_refAbsorb acc b hb]

theorem crcFold_eq_ref (l : List Nat) (hb : ∀ b ∈ l, b < 256) (acc : Nat) :
    crcFold acc l = l.foldl (fun a b => refShift^[8] (refAbsorb a b)) acc := by
  induction l generalizing acc with
  | nil => rfl
  | cons a t ih =>
    have ha : a < 256 := hb a (List.mem_cons_self a t)
    rw [crcFold_cons, List.foldl_cons, ← crcByte_eq_ref acc a ha]
    exact ih (fun b hm => hb b (List.mem_cons_of_mem a hm)) _

theorem shr8_and_ff (c : Nat) (hc : c < 65536) : (c >>> 8) &&& 0xFF = c >>> 8 := by
  rw [and_ff, shr8]
  omega

/-- A 16-bit register read big-endian from two bytes. -/
theorem word_eq (hi lo w : Nat) (hhi : hi < 256) (hlo : lo < 256) (hw : 65536 ≤ w) :
    ((hi <<< 8) ||| lo) % w = 256 * hi + lo := by
  rw [shl8_or hi lo hlo]
  exact Nat.mod_eq_of_lt (by omega)

/-- Two-register decode of `raw32` in arithmetic form. -/
theorem raw32_eq (p : PZEM_t) (k : Nat) (hb : ∀ b ∈ p.lastResponse, b < 256) :
    raw32 p k =
      (256 * p.lastResponse.getD (k + 2) 0 + p.lastResponse.getD (k + 3) 0) * 65536 +
        (256 * p.lastResponse.getD k 0 + p.lastResponse.getD (k + 1) 0) := by
  have h0 := getD_lt p.lastResponse k hb
  have h1 := getD_lt p.lastResponse (k + 1) hb
  have h2 := getD_lt p.lastResponse (k + 2) hb
  have h3 := getD_lt p.lastResponse (k + 3) hb
  unfold raw32
  simp only []
  rw [word_eq _ _ (2 ^ 16) h0 h1 (by norm_num), word_eq _ _ (2 ^ 16) h2 h3 (by norm_num)]
  rw [Nat.mod_eq_of_lt (by omega), Nat.shiftLeft_eq, Nat.mod_eq_of_lt (by omega)]
  rw [Nat.mul_comm _ (2 ^ 16)]
  rw [← Nat.mul_add_lt_is_or (i := 16) (by omega)]

/-- Outcome of `PZEM_ResetEnergy` after a successful transmission. -/
theorem resetEnergy_eq (p : PZEM_t) (uart : UART)
    (htx : uart.transmit (resetCommand p.addr) p.timeout = true) :
    PZEM_ResetEnergy p uart =
      (received uart p.timeout 5).map fun r =>
        (decide (r.length = 5) && verifyCRC (r ++ (List.replicate 5 0).drop r.length) 5) := by
  have ht : (resetCommand p.addr).take 4 = resetCommand p.addr :=
    List.take_of_length_le (by rw [resetCommand_length])
  rw [resetEnergy_verdict]
  rw [sendReceive_eq p uart (resetCommand p.addr) 4 (List.replicate 5 0) 5 (by norm_num)
    (by norm_num) (by simp) (by rw [ht]; exact htx)]
  cases received uart p.timeout 5 <;> simp

/-- Outcome of `PZEM_ResetEnergy` when the transmission fails. -/
theorem resetEnergy_txfail (p : PZEM_t) (uart : UART)
    (htx : uart.transmit (resetCommand p.addr) p.timeout = false) :
    PZEM_ResetEnergy p uart = some false := by
  have ht : (resetCommand p.addr).take 4 = resetCommand p.addr :=
    List.take_of_length_le (by rw [resetCommand_length])
  simp [resetEnergy_verdict, sendReceive, ht, htx]

/-- The CRC check on a full buffer of received bytes, with the trailer
written as the shift-or of the source. -/
theorem verifyCRC_shift_iff (r : List Nat) (n : Nat) (hb : ∀ x ∈ r, x < 256) :
    verifyCRC r n = true ↔
      ((r.getD (n - 1) 0 <<< 8) ||| r.getD (n - 2) 0) = calculateCRC r (n - 2) := by
  rw [verifyCRC_true_iff r n hb, shl8_or _ _ (getD_lt r (n - 2) hb)]
  omega

/-- The receive loop over a record whose first part leaves it running
continues from the state reached after that part. -/
theorem recvLoop_append (timeout startTime recvSize : Nat) (pre rest : List Poll) :
    ∀ s s' : RxState, afterPolls timeout startTime recvSize pre s = some s' →
      recvLoop timeout startTime recvSize (pre ++ rest) s =
        recvLoop timeout startTime recvSize rest s' := by
  induction pre with
  | nil =>
    intro s s' h
    simp only [afterPolls] at h
    split at h
    · simp only [Option.some.injEq] at h
      subst h
      rfl
    · exact absurd h (by simp)
  | cons q qs ih =>
    intro s s' h
    simp only [afterPolls] at h
    by_cases hlt : s.bytesReceived < recvSize
    · rw [if_pos hlt] at h
      by_cases hbrk : (recvStep timeout startTime s q).2 = true
      · rw [if_pos hbrk] at h
        exact absurd h (by simp)
      · rw [if_neg hbrk] at h
        simp only [List.cons_append, recvLoop]
        rw [if_pos hlt, if_neg hbrk]
        exact ih _ _ h
    · rw [if_neg hlt] at h
      exact absurd h (by simp)

/-- A state the loop is still running in has fewer than `recvSize` bytes. -/
theorem afterPolls_lt (timeout startTime recvSize : Nat) (pre : List Poll) :
    ∀ s s' : RxState, afterPolls timeout startTime recvSize pre s = some s' →
      s'.bytesReceived < recvSize := by
  induction pre with
  | nil =>
    intro s s' h
    simp only [afterPolls] at h
    split at h
    · rename_i hlt
      simp only [Option.some.injEq] at h
      subst h
      exact hlt
    · exact absurd h (by simp)
  | cons q qs ih =>
    intro s s' h
    simp only [afterPolls] at h
    by_cases hlt : s.bytesReceived < recvSize
    · rw [if_pos hlt] at h
      by_cases hbrk : (recvStep timeout startTime s q).2 = true
      · rw [if_pos hbrk] at h
        exact absurd h (by simp)
      · rw [if_neg hbrk] at h
        exact ih _ _ h
    · rw [if_neg hlt] at h
      exact absurd h (by simp)

theorem crcBit_double (x : Nat) : crcBit (2 * x) = x := by
  have h1 : (2 * x) &&& 1 = (2 * x) % 2 := by simp
  have h2 : (2 * x) >>> 1 = x := by
    rw [Nat.shiftRight_eq_div_pow]
    omega
  unfold crcBit
  rw [h1, h2, if_neg (by omega)]

/-- Shifting out `j` zero bits leaves the upper part of the accumulator. -/
theorem crcBits_shift (j m : Nat) : crcBits j (2 ^ j * m) = m := by
  induction j generalizing m with
  | zero => simp [crcBits]
  | succ j ih =>
    have : 2 ^ (j + 1) * m = 2 * (2 ^ j * m) := by rw [Nat.pow_succ]; ring
    rw [crcBits, this, crcBit_double]
    exact ih m

theorem crcBits_zero (j : Nat) : crcBits j 0 = 0 := by
  have := crcBits_shift j 0
  simpa using this

/-- Absorbing the low byte and then the high byte of the accumulator clears
it. -/
theorem crcByte_residue (c : Nat) :
    crcByte (crcByte c (c &&& 0xFF)) (c >>> 8) = 0 := by
  have hlow : c % 256 < 256 := Nat.mod_lt _ (by norm_num)
  have h1 : c ^^^ (c &&& 0xFF) = 2 ^ 8 * (c / 256) := by
    rw [and_ff, xor_byte_eq_refAbsorb c (c % 256) hlow]
    unfold refAbsorb
    rw [Nat.xor_self]
    norm_num
  have h2 : crcByte c (c &&& 0xFF) = c / 256 := by
    unfold crcByte
    rw [h1]
    exact crcBits_shift 8 (c / 256)
  rw [h2, shr8]
  unfold crcByte
  rw [Nat.xor_self]
  exact crcBits_zero 8

/-- Frame built by `readRegisters`, in explicit form. -/
theorem readCommand_eq (a : Nat) (ha : a < 256) :
    readCommand a =
      [a, 0x04, 0x00, 0x00, 0x00, 0x0A,
        calculateCRC [a, 0x04, 0x00, 0x00, 0x00, 0x0A] 6 &&& 0xFF,
        calculateCRC [a, 0x04, 0x00, 0x00, 0x00, 0x0A] 6 >>> 8] := by
  have hc : calculateCRC [a, 0x04, 0x00, 0x00, 0x00, 0x0A] 6 < 65536 := by
    apply calculateCRC_lt
    intro b hm
    simp only [List.mem_cons, List.mem_singleton, List.not_mem_nil, or_false] at hm
    omega
  have hsame : calculateCRC [a, 0x04, 0x00, 0x00, 0x00, 0x0A, 0, 0] 6 =
      calculateCRC [a, 0x04, 0x00, 0x00, 0x00, 0x0A] 6 :=
    calculateCRC_congr _ _ 6 rfl (by simp) (by simp)
  simp only [readCommand, PZEM_READ_COMMAND, hsame, List.set_cons_succ, List.set_cons_zero,
    shr8_and_ff _ hc]

/-- Frame built by `PZEM_ResetEnergy`, in explicit form. -/
theorem resetCommand_eq (a : Nat) (ha : a < 256) :
    resetCommand a =
      [a, 0x42, calculateCRC [a, 0x42] 2 &&& 0xFF, calculateCRC [a, 0x42] 2 >>> 8] := by
  have hc : calculateCRC [a, 0x42] 2 < 65536 := by
    apply calculateCRC_lt
    intro b hm
    simp only [List.mem_cons, List.mem_singleton, List.not_mem_nil, or_false] at hm
    omega
  have hsame : calculateCRC [a, 0x42, 0, 0] 2 = calculateCRC [a, 0x42] 2 :=
    calculateCRC_congr _ _ 2 rfl (by simp) (by simp)
  simp only [resetCommand, PZEM_RESET_ENERGY, hsame, List.set_cons_succ, List.set_cons_zero,
    shr8_and_ff _ hc]

/-- A body of bytes followed by the low and high byte of its CRC passes the
CRC check. -/
theorem verifyCRC_append_crc (d : List Nat) (hb : ∀ b ∈ d, b < 256) :
    verifyCRC (d ++ [calculateCRC d d.length &&& 0xFF, calculateCRC d d.length >>> 8])
      (d.length + 2) = true := by
  have hc := calculateCRC_lt d d.length hb
  have hcong : calculateCRC
      (d ++ [calculateCRC d d.length &&& 0xFF, calculateCRC d d.length >>> 8]) d.length =
      calculateCRC d d.length :=
    calculateCRC_congr _ _ d.length (by simp) (by simp) (Nat.le_refl _)
  have hall : ∀ b ∈ d ++ [calculateCRC d d.length &&& 0xFF, calculateCRC d d.length >>> 8],
      b < 256 := by
    intro b hm
    rcases List.mem_append.mp hm with h | h
    · exact hb b h
    · simp only [List.mem_cons, List.mem_singleton, List.not_mem_nil, or_false] at h
      rcases h with rfl | rfl
      · rw [and_ff]; omega
      · rw [shr8]; omega
  rw [verifyCRC_true_iff _ _ hall]
  have e2 : d.length + 2 - 2 = d.length := by omega
  have e1 : d.length + 2 - 1 = d.length + 1 := by omega
  rw [e2, e1, hcong]
  have g0 : (d ++ [calculateCRC d d.length &&& 0xFF, calculateCRC d d.length >>> 8]).getD
      d.length 0 = calculateCRC d d.length &&& 0xFF := by
    rw [List.getD_append_right _ _ _ _ (Nat.le_refl _)]
    simp
  have g1 : (d ++ [calculateCRC d d.length &&& 0xFF, calculateCRC d d.length >>> 8]).getD
      (d.length + 1) 0 = calculateCRC d d.length >>> 8 := by
    rw [List.getD_append_right _ _ _ _ (by omega)]
    simp
  rw [g0, g1, and_ff, shr8]
  omega

/-- Unsigned 32-bit subtraction recovers the elapsed time across a wrap of
the counter. -/
theorem sub32_add (s d : Nat) (hd : d < 2 ^ 32) : sub32 ((s + d) % 2 ^ 32) s = d := by
  unfold sub32
  simp only [Nat.reducePow] at hd ⊢
  omega

/-! ## Cache update by `PZEM_ReadAll` -/

/-- C1 (as stated, refuted): a read over `uartOneByte` reports failure, yet
the cache of the freshly initialised handle changes from 25 zero bytes to
`01 00 .. 00`. -/
theorem readAll_failure_mutates_cache :
    handle0.WF ∧ PZEM_ReadAll handle0 uartOneByte = some (false, handle1) ∧
      received uartOneByte handle0.timeout 25 = some [1] ∧
      handle1.lastResponse ≠ handle0.lastResponse := by
  refine ⟨⟨by decide, by decide, by decide, by decide⟩, by decide, by decide, by decide⟩

/-- C1 (amended): when `PZEM_ReadAll` reports failure, address, timeout and
UART reference are unchanged; if transmission failed or no byte was received
the cache is unchanged; if `k` bytes were received, cache positions `0..k-1`
hold them in arrival order and positions `k..24` keep their values. -/
theorem readAll_failure_cache (h h' : PZEM_t) (uart : UART)
    (hlen : h.lastResponse.length = 25)
    (hfail : PZEM_ReadAll h uart = some (false, h')) :
    h'.huart = h.huart ∧ h'.addr = h.addr ∧ h'.timeout = h.timeout ∧
      (uart.transmit (readCommand h.addr) h.timeout = false →
        h'.lastResponse = h.lastResponse) ∧
      (uart.transmit (readCommand h.addr) h.timeout = true →
        ∃ r, received uart h.timeout 25 = some r ∧ r.length ≤ 25 ∧
          h'.lastResponse = r ++ h.lastResponse.drop r.length) ∧
      (received uart h.timeout 25 = some [] → h'.lastResponse = h.lastResponse) := by
  cases htx : uart.transmit (readCommand h.addr) h.timeout with
  | false =>
    rw [readAll_txfail h uart htx] at hfail
    simp only [Option.some.injEq, Prod.mk.injEq, true_and] at hfail
    subst hfail
    simp
  | true =>
    rw [readAll_eq h uart hlen htx] at hfail
    cases hr : received uart h.timeout 25 with
    | none => rw [hr] at hfail; simp at hfail
    | some r =>
      rw [hr] at hfail
      simp only [Option.map_some', Option.some.injEq, Prod.mk.injEq] at hfail
      obtain ⟨_, hh⟩ := hfail
      subst hh
      have hb := received_bounds uart h.timeout 25 (by norm_num) r hr
      refine ⟨rfl, rfl, rfl, by simp, fun _ => ⟨r, rfl, hb.1, rfl⟩, ?_⟩
      intro hnil
      simp only [Option.some.injEq] at hnil
      subst hnil
      simp

/-- C1 (amended), instance: a silent transport leaves the fresh cache as it
is, and one byte followed by silence changes position 0 only. -/
theorem readAll_failure_cache_witness :
    handle1.lastResponse = [1] ++ handle0.lastResponse.drop 1 ∧
      (∃ r, received uartOneByte handle0.timeout 25 = some r ∧ r.length ≤ 25 ∧
        handle1.lastResponse = r ++ handle0.lastResponse.drop r.length) :=
  ⟨by decide,
    (readAll_failure_cache handle0 handle1 uartOneByte (by decide) (by decide)).2.2.2.2.1
      (by decide)⟩

/-- C2 (as stated, refuted): one read over `uartOneByte` takes the freshly
initialised handle to a state whose cache `01 00 .. 00` is neither all zero
nor a frame with a matching CRC. -/
theorem cache_invariant_broken :
    run (PZEM_Init ⟨0, 0, 0, []⟩ 7 1) [Op.readAll uartOneByte] = some handle1 ∧
      ¬ cacheInv handle1 := by
  refine ⟨by decide, by decide⟩

/-- C2 (amended): in every state reached from `PZEM_Init` by a sequence of
`PZEM_ReadAll`, `PZEM_ResetEnergy` and accessor calls in which no
`PZEM_ReadAll` reports failure after storing at least one byte, the cache is
25 zero bytes or a 25-byte frame whose last two bytes, low byte first, are
the CRC16 of its first 23. -/
theorem cache_invariant_clean (p0 : PZEM_t) (huart addr : Nat) (ops : List Op) (p : PZEM_t)
    (hrun : run (PZEM_Init p0 huart addr) ops = some p)
    (hclean : cleanRun (PZEM_Init p0 huart addr) ops = true) : cacheInv p :=
  run_cacheInv ops (PZEM_Init p0 huart addr) p (Or.inl rfl) hrun hclean

/-- C2 (amended), instance: a silent read, a good read, an energy reset that
gets no answer and an accessor call. -/
theorem cache_invariant_clean_witness :
    cacheInv { handle0 with lastResponse := goodFrame } :=
  cache_invariant_clean ⟨0, 0, 0, []⟩ 7 1
    [Op.readAll uartSilent, Op.readAll (uartOfBytes goodFrame), Op.resetEnergy uartSilent,
      Op.voltage]
    { handle0 with lastResponse := goodFrame } (by decide) (by decide)

/-- C3: when transmission succeeds and 25 bytes are received whose last two,
low byte first, are the CRC16 of the first 23, `PZEM_ReadAll` reports success
and the handle afterwards is the old one with the cache replaced by exactly
the received bytes. -/
theorem readAll_success_cache (h : PZEM_t) (uart : UART) (r : List Nat)
    (hlen : h.lastResponse.length = 25)
    (htx : uart.transmit (readCommand h.addr) h.timeout = true)
    (hrx : received uart h.timeout 25 = some r) (hr : r.length = 25)
    (hcrc : ((r.getD 24 0 <<< 8) ||| r.getD 23 0) = calculateCRC (r.take 23) 23) :
    PZEM_ReadAll h uart = some (true, { h with lastResponse := r }) ∧
      ∀ h', PZEM_ReadAll h uart = some (true, h') →
        h'.lastResponse = r ∧ h'.addr = h.addr ∧ h'.timeout = h.timeout := by
  have hb := received_bounds uart h.timeout 25 (by norm_num) r hrx
  have hdrop : h.lastResponse.drop r.length = [] := by
    apply List.drop_of_length_le
    omega
  have hv : verifyCRC r 25 = true := by
    have h24 : r.getD 24 0 < 256 := by
      rw [List.getD_eq_getElem _ _ (by omega)]
      exact hb.2 _ (List.getElem_mem _)
    have h23 : r.getD 23 0 < 256 := by
      rw [List.getD_eq_getElem _ _ (by omega)]
      exact hb.2 _ (List.getElem_mem _)
    have hlt : (r.getD 24 0 <<< 8) ||| r.getD 23 0 < 65536 := by
      apply Nat.or_lt_two_pow (n := 16)
      · rw [Nat.shiftLeft_eq]; omega
      · omega
    have hc : calculateCRC r 23 = calculateCRC (r.take 23) 23 := by
      rw [calculateCRC_eq_crcFold r 23 (by omega),
        calculateCRC_eq_crcFold (r.take 23) 23 (by simp; omega), List.take_take]
      simp only [min_self]
    simp only [verifyCRC]
    rw [Nat.mod_eq_of_lt hlt, hc, hcrc]
    simp
  have key : PZEM_ReadAll h uart = some (true, { h with lastResponse := r }) := by
    rw [readAll_eq h uart hlen htx, hrx]
    rw [hr] at hdrop
    simp [hdrop, hr, hv]
  refine ⟨key, ?_⟩
  intro h' hh
  rw [key] at hh
  simp only [Option.some.injEq, Prod.mk.injEq, true_and] at hh
  subst hh
  exact ⟨rfl, rfl, rfl⟩

/-- C3, instance: the frame `goodFrame` delivered to the fresh handle. -/
theorem readAll_success_cache_witness :
    PZEM_ReadAll handle0 (uartOfBytes goodFrame) =
      some (true, { handle0 with lastResponse := goodFrame }) :=
  (readAll_success_cache handle0 (uartOfBytes goodFrame) goodFrame (by decide) (by decide)
    (by decide) (by decide) (by decide)).1

/-! ## Frame validation -/

/-- C4: for a received buffer of the full expected length `n` (25 for the
read response, 5 for the reset acknowledgement) the CRC check of `sendReceive`
succeeds exactly when `buf[n-2]` is the low byte and `buf[n-1]` the high byte
of `calculateCRC` over `buf[0..n-3]`. -/
theorem verifyCRC_iff_trailer (buf : List Nat) (n : Nat) (_hn : n = 25 ∨ n = 5)
    (_hlen : buf.length = n) (hb : ∀ b ∈ buf, b < 256) :
    verifyCRC buf n = true ↔
      (buf.getD (n - 2) 0 = calculateCRC buf (n - 2) &&& 0xFF ∧
        buf.getD (n - 1) 0 = calculateCRC buf (n - 2) >>> 8) := by
  have hc := calculateCRC_lt buf (n - 2) hb
  have hlo := getD_lt buf (n - 2) hb
  have hhi := getD_lt buf (n - 1) hb
  rw [verifyCRC_true_iff buf n hb, and_ff, shr8]
  omega

/-- C4, instance: the 25-byte frame `goodFrame` passes the check and its
trailer is `28 A5`. -/
theorem verifyCRC_iff_trailer_witness :
    verifyCRC goodFrame 25 = true ∧ calculateCRC goodFrame 23 = 0xA528 :=
  ⟨(verifyCRC_iff_trailer goodFrame 25 (Or.inl rfl) (by decide) (by decide)).mpr
    ⟨by decide, by decide⟩, by decide⟩

/-- C5: in a 25-byte buffer that passes the CRC check, replacing any payload
byte (index 0..22) by a different byte value makes the check fail. -/
theorem verifyCRC_detects_byte_change (buf : List Nat) (i v : Nat)
    (hlen : buf.length = 25) (hb : ∀ b ∈ buf, b < 256) (hi : i < 23) (hv : v < 256)
    (hne : v ≠ buf.getD i 0) (hok : verifyCRC buf 25 = true) :
    verifyCRC (buf.set i v) 25 = false := by
  have hb2 : ∀ b ∈ buf.set i v, b < 256 := by
    intro b hm
    rcases List.mem_or_eq_of_mem_set hm with h | h
    · exact hb b h
    · omega
  have h1 := (verifyCRC_true_iff buf 25 hb).mp hok
  have hcrc := calculateCRC_set_ne buf 23 i v (by omega) hb hi hv hne
  have h23 : (buf.set i v).getD 23 0 = buf.getD 23 0 := by
    simp [List.getElem?_set_ne (show i ≠ 23 by omega)]
  have h24 : (buf.set i v).getD 24 0 = buf.getD 24 0 := by
    simp [List.getElem?_set_ne (show i ≠ 24 by omega)]
  cases hres : verifyCRC (buf.set i v) 25 with
  | false => rfl
  | true =>
    have h2 := (verifyCRC_true_iff (buf.set i v) 25 hb2).mp hres
    simp only [Nat.reduceSub] at h1 h2
    rw [h23, h24] at h2
    exact absurd (h2.symm.trans h1) hcrc

/-- C5, instance: `goodFrame` with its voltage low byte changed from `00` to
`01`. -/
theorem verifyCRC_detects_byte_change_witness :
    verifyCRC goodFrame 25 = true ∧ verifyCRC (goodFrame.set 4 1) 25 = false :=
  ⟨by decide,
    verifyCRC_detects_byte_change goodFrame 4 1 (by decide) (by decide) (by decide)
      (by decide) (by decide) (by decide)⟩

/-! ## CRC16 and command frames -/

/-- C6: on every byte sequence of length 0..255 `calculateCRC` equals the
reference Modbus-RTU CRC16 (accumulator `0xFFFF`, per byte an XOR into the low
8 bits and 8 right shifts with `0xA001` folded in when a 1 is shifted out, no
final XOR); the CRC of `01 04 00 00 00 0A` is `0x0D70` and that of the empty
sequence is `0xFFFF`. -/
theorem calculateCRC_eq_modbusCRC16 (data : List Nat) (_hlen : data.length ≤ 255)
    (hb : ∀ b ∈ data, b < 256) :
    calculateCRC data data.length = modbusCRC16 data ∧
      calculateCRC [0x01, 0x04, 0x00, 0x00, 0x00, 0x0A] 6 = 0x0D70 ∧
      calculateCRC [] 0 = 0xFFFF := by
  refine ⟨?_, by decide, by decide⟩
  rw [calculateCRC_eq_crcFold data data.length (Nat.le_refl _), List.take_length]
  exact crcFold_eq_ref data hb 0xFFFF

/-- C6, instance: the read-all command body for address 1. -/
theorem calculateCRC_eq_modbusCRC16_witness :
    modbusCRC16 [0x01, 0x04, 0x00, 0x00, 0x00, 0x0A] = 0x0D70 :=
  ((calculateCRC_eq_modbusCRC16 [0x01, 0x04, 0x00, 0x00, 0x00, 0x0A] (by decide)
    (by decide)).1.symm.trans (by decide))

/-- C7: for every bus address `a` in 0..255 the frame `readRegisters` passes
to `sendReceive`, and so to the transmit primitive, is the 8 bytes
`a 04 00 00 00 0A lo hi` with `lo`, `hi` the low and high byte of the CRC16 of
the first six; for address 1 it is `01 04 00 00 00 0A 70 0D`. -/
theorem readRegisters_frame (a : Nat) (ha : a < 256) :
    readCommand a =
        [a, 0x04, 0x00, 0x00, 0x00, 0x0A,
          calculateCRC [a, 0x04, 0x00, 0x00, 0x00, 0x0A] 6 &&& 0xFF,
          calculateCRC [a, 0x04, 0x00, 0x00, 0x00, 0x0A] 6 >>> 8] ∧
      (∀ (pzem : PZEM_t) (uart : UART) (response : List Nat), pzem.addr = a →
        readRegisters pzem uart response =
          sendReceive pzem uart
            [a, 0x04, 0x00, 0x00, 0x00, 0x0A,
              calculateCRC [a, 0x04, 0x00, 0x00, 0x00, 0x0A] 6 &&& 0xFF,
              calculateCRC [a, 0x04, 0x00, 0x00, 0x00, 0x0A] 6 >>> 8] 8 response 25) ∧
      readCommand 0x01 = [0x01, 0x04, 0x00, 0x00, 0x00, 0x0A, 0x70, 0x0D] := by
  have hc : calculateCRC [a, 0x04, 0x00, 0x00, 0x00, 0x0A] 6 < 65536 := by
    apply calculateCRC_lt
    intro b hm
    simp only [List.mem_cons, List.mem_singleton, List.not_mem_nil, or_false] at hm
    omega
  have hsame : calculateCRC [a, 0x04, 0x00, 0x00, 0x00, 0x0A, 0, 0] 6 =
      calculateCRC [a, 0x04, 0x00, 0x00, 0x00, 0x0A] 6 :=
    calculateCRC_congr _ _ 6 rfl (by simp) (by simp)
  have hframe : readCommand a =
      [a, 0x04, 0x00, 0x00, 0x00, 0x0A,
        calculateCRC [a, 0x04, 0x00, 0x00, 0x00, 0x0A] 6 &&& 0xFF,
        calculateCRC [a, 0x04, 0x00, 0x00, 0x00, 0x0A] 6 >>> 8] := by
    simp only [readCommand, PZEM_READ_COMMAND, hsame, List.set_cons_succ, List.set_cons_zero,
      shr8_and_ff _ hc]
  refine ⟨hframe, ?_, by decide⟩
  intro pzem uart response hp
  rw [← hframe, ← hp]
  rfl

/-- C7, instance: the frame for the broadcast address 0. -/
theorem readRegisters_frame_witness :
    readCommand 0 = [0x00, 0x04, 0x00, 0x00, 0x00, 0x0A, 0x71, 0xDC] :=
  (readRegisters_frame 0 (by decide)).1.trans (by decide)

/-- C8: for every bus address `a` in 0..255 the frame `PZEM_ResetEnergy`
passes to `sendReceive`, and so to the transmit primitive, is the 4 bytes
`a 42 lo hi` with `lo`, `hi` the low and high byte of the CRC16 of the first
two; for address 1 it is `01 42 80 11`. -/
theorem resetEnergy_frame (a : Nat) (ha : a < 256) :
    resetCommand a =
        [a, 0x42, calculateCRC [a, 0x42] 2 &&& 0xFF, calculateCRC [a, 0x42] 2 >>> 8] ∧
      (∀ (pzem : PZEM_t) (uart : UART), pzem.addr = a →
        PZEM_ResetEnergy pzem uart =
          (sendReceive pzem uart
            [a, 0x42, calculateCRC [a, 0x42] 2 &&& 0xFF, calculateCRC [a, 0x42] 2 >>> 8]
            4 (List.replicate 5 0) 5).map fun r => r.1) ∧
      resetCommand 0x01 = [0x01, 0x42, 0x80, 0x11] := by
  have hc : calculateCRC [a, 0x42] 2 < 65536 := by
    apply calculateCRC_lt
    intro b hm
    simp only [List.mem_cons, List.mem_singleton, List.not_mem_nil, or_false] at hm
    omega
  have hsame : calculateCRC [a, 0x42, 0, 0] 2 = calculateCRC [a, 0x42] 2 :=
    calculateCRC_congr _ _ 2 rfl (by simp) (by simp)
  have hframe : resetCommand a =
      [a, 0x42, calculateCRC [a, 0x42] 2 &&& 0xFF, calculateCRC [a, 0x42] 2 >>> 8] := by
    simp only [resetCommand, PZEM_RESET_ENERGY, hsame, List.set_cons_succ, List.set_cons_zero,
      shr8_and_ff _ hc]
  refine ⟨hframe, ?_, by decide⟩
  intro pzem uart hp
  rw [← hframe, ← hp]
  exact resetEnergy_verdict pzem uart

/-- C8, instance: the frame for address `0xF8`. -/
theorem resetEnergy_frame_witness :
    resetCommand 0xF8 = [0xF8, 0x42, 0xC2, 0x41] :=
  (resetEnergy_frame 0xF8 (by decide)).1.trans (by decide)

/-! ## Response decoder -/

/-- C9: for a 25-byte cache `c`, `PZEM_Voltage` decodes `256*c[3] + c[4]` and
returns it divided by 10, `PZEM_Frequency` decodes `256*c[17] + c[18]` and
returns it divided by 10, `PZEM_PowerFactor` decodes `256*c[19] + c[20]` and
returns it divided by 100; bytes `08 CA` at offsets 3, 4 give raw 2250 and
225.0 volts, and a raw power factor `0x0032` gives 0.50. -/
theorem decode16 (p : PZEM_t) (hwf : p.WF) :
    (voltageRaw p = 256 * p.lastResponse.getD 3 0 + p.lastResponse.getD 4 0 ∧
      PZEM_Voltage p = ((256 * p.lastResponse.getD 3 0 + p.lastResponse.getD 4 0 : ℕ) : ℚ) / 10) ∧
    (frequencyRaw p = 256 * p.lastResponse.getD 17 0 + p.lastResponse.getD 18 0 ∧
      PZEM_Frequency p =
        ((256 * p.lastResponse.getD 17 0 + p.lastResponse.getD 18 0 : ℕ) : ℚ) / 10) ∧
    (powerFactorRaw p = 256 * p.lastResponse.getD 19 0 + p.lastResponse.getD 20 0 ∧
      PZEM_PowerFactor p =
        ((256 * p.lastResponse.getD 19 0 + p.lastResponse.getD 20 0 : ℕ) : ℚ) / 100) ∧
    (p.lastResponse.getD 3 0 = 0x08 → p.lastResponse.getD 4 0 = 0xCA →
      voltageRaw p = 2250 ∧ PZEM_Voltage p = 225) ∧
    (powerFactorRaw p = 0x0032 → PZEM_PowerFactor p = 1 / 2) := by
  obtain ⟨_, _, _, hb⟩ := hwf
  have hv : voltageRaw p = 256 * p.lastResponse.getD 3 0 + p.lastResponse.getD 4 0 :=
    word_eq _ _ (2 ^ 32) (getD_lt _ 3 hb) (getD_lt _ 4 hb) (by norm_num)
  have hf : frequencyRaw p = 256 * p.lastResponse.getD 17 0 + p.lastResponse.getD 18 0 :=
    word_eq _ _ (2 ^ 32) (getD_lt _ 17 hb) (getD_lt _ 18 hb) (by norm_num)
  have hpf : powerFactorRaw p = 256 * p.lastResponse.getD 19 0 + p.lastResponse.getD 20 0 :=
    word_eq _ _ (2 ^ 32) (getD_lt _ 19 hb) (getD_lt _ 20 hb) (by norm_num)
  refine ⟨⟨hv, ?_⟩, ⟨hf, ?_⟩, ⟨hpf, ?_⟩, ?_, ?_⟩
  · rw [← hv]; rfl
  · rw [← hf]; rfl
  · rw [← hpf]; rfl
  · intro h3 h4
    have : voltageRaw p = 2250 := by rw [hv, h3, h4]
    refine ⟨this, ?_⟩
    unfold PZEM_Voltage
    rw [this]
    norm_num
  · intro h
    unfold PZEM_PowerFactor
    rw [h]
    norm_num

/-- C9, instance: the cache `goodFrame` holds 230.4 V, 50.0 Hz and a power
factor of 0.50. -/
theorem decode16_witness :
    PZEM_Voltage { handle0 with lastResponse := goodFrame } = 2304 / 10 ∧
      PZEM_Frequency { handle0 with lastResponse := goodFrame } = 50 ∧
      PZEM_PowerFactor { handle0 with lastResponse := goodFrame } = 1 / 2 := by
  have h := decode16 { handle0 with lastResponse := goodFrame }
    ⟨by decide, by decide, by decide, by decide⟩
  refine ⟨?_, ?_, ?_⟩
  · rw [h.1.2]; norm_num [goodFrame]
  · rw [h.2.1.2]; norm_num [goodFrame]
  · exact h.2.2.2.2 (by decide)

/-- C10: for a 25-byte cache `c`, with `low = 256*c[k] + c[k+1]` and
`high = 256*c[k+2] + c[k+3]`, the raw value is `high*65536 + low`, below
`2^32`, for `k = 5` in `PZEM_Current` (result raw/1000), `k = 9` in
`PZEM_Power` (raw/10) and `k = 13` in `PZEM_Energy` (raw/1000). -/
theorem decode32 (p : PZEM_t) (hwf : p.WF) :
    (currentRaw p =
        (256 * p.lastResponse.getD 7 0 + p.lastResponse.getD 8 0) * 65536 +
          (256 * p.lastResponse.getD 5 0 + p.lastResponse.getD 6 0) ∧
      currentRaw p < 2 ^ 32 ∧ PZEM_Current p = (currentRaw p : ℚ) / 1000) ∧
    (powerRaw p =
        (256 * p.lastResponse.getD 11 0 + p.lastResponse.getD 12 0) * 65536 +
          (256 * p.lastResponse.getD 9 0 + p.lastResponse.getD 10 0) ∧
      powerRaw p < 2 ^ 32 ∧ PZEM_Power p = (powerRaw p : ℚ) / 10) ∧
    (energyRaw p =
        (256 * p.lastResponse.getD 15 0 + p.lastResponse.getD 16 0) * 65536 +
          (256 * p.lastResponse.getD 13 0 + p.lastResponse.getD 14 0) ∧
      energyRaw p < 2 ^ 32 ∧ PZEM_Energy p = (energyRaw p : ℚ) / 1000) := by
  obtain ⟨_, _, _, hb⟩ := hwf
  have hc := raw32_eq p 5 hb
  have hp := raw32_eq p 9 hb
  have he := raw32_eq p 13 hb
  simp only [Nat.reduceAdd] at hc hp he
  have g := fun i => getD_lt p.lastResponse i hb
  have g5 := g 5; have g6 := g 6; have g7 := g 7; have g8 := g 8
  have g9 := g 9; have g10 := g 10; have g11 := g 11; have g12 := g 12
  have g13 := g 13; have g14 := g 14; have g15 := g 15; have g16 := g 16
  refine ⟨⟨hc, ?_, rfl⟩, ⟨hp, ?_, rfl⟩, ⟨he, ?_, rfl⟩⟩
  · unfold currentRaw; rw [hc]; omega
  · unfold powerRaw; rw [hp]; omega
  · unfold energyRaw; rw [he]; omega

/-- C10, instance: the cache `goodFrame` holds current low word `03E8`, high
word `0000` (1.000 A), power low word `08FC` (230.0 W) and energy low word
`007B` (0.123 kWh). -/
theorem decode32_witness :
    currentRaw { handle0 with lastResponse := goodFrame } = 1000 ∧
      powerRaw { handle0 with lastResponse := goodFrame } = 2300 ∧
      energyRaw { handle0 with lastResponse := goodFrame } = 123 := by
  have h := decode32 { handle0 with lastResponse := goodFrame }
    ⟨by decide, by decide, by decide, by decide⟩
  exact ⟨h.1.1.trans (by decide), h.2.1.1.trans (by decide), h.2.2.1.trans (by decide)⟩

/-! ## Test vector, initialisation and energy reset -/

/-- C11 (as stated, refuted): with low word bytes `00 00` at offsets 5, 6
and high word bytes `00 64` at offsets 7, 8 the raw current is
`0x64 * 65536 = 6553600`, not 100, and the accessor returns 6553.6, not
0.100. -/
theorem current_vector_refuted :
    handleHigh.WF ∧ handleHigh.lastResponse.getD 5 0 = 0x00 ∧
      handleHigh.lastResponse.getD 6 0 = 0x00 ∧ handleHigh.lastResponse.getD 7 0 = 0x00 ∧
      handleHigh.lastResponse.getD 8 0 = 0x64 ∧ currentRaw handleHigh = 6553600 ∧
      currentRaw handleHigh ≠ 100 ∧ PZEM_Current handleHigh ≠ 100 / 1000 := by
  have hraw : currentRaw handleHigh = 6553600 := by decide
  refine ⟨⟨by decide, by decide, by decide, by decide⟩, by decide, by decide, by decide,
    by decide, hraw, by decide, ?_⟩
  unfold PZEM_Current
  rw [hraw]
  norm_num

/-- C11 (amended): for a cache whose current low word bytes (offsets 5, 6)
are `00 64` and whose high word bytes (offsets 7, 8) are `00 00`, the raw
current is 100 and `PZEM_Current` returns 0.100; with low word `00 00` and
high word `00 64` the raw current is 6553600 and the result 6553.6. -/
theorem current_vector (p : PZEM_t) (hwf : p.WF) :
    (p.lastResponse.getD 5 0 = 0x00 → p.lastResponse.getD 6 0 = 0x64 →
      p.lastResponse.getD 7 0 = 0x00 → p.lastResponse.getD 8 0 = 0x00 →
        currentRaw p = 100 ∧ PZEM_Current p = 100 / 1000) ∧
    (p.lastResponse.getD 5 0 = 0x00 → p.lastResponse.getD 6 0 = 0x00 →
      p.lastResponse.getD 7 0 = 0x00 → p.lastResponse.getD 8 0 = 0x64 →
        currentRaw p = 6553600 ∧ PZEM_Current p = 65536 / 10) := by
  obtain ⟨_, _, _, hb⟩ := hwf
  have hc : currentRaw p = _ := raw32_eq p 5 hb
  simp only [Nat.reduceAdd] at hc
  constructor
  · intro h5 h6 h7 h8
    have hraw : currentRaw p = 100 := by rw [hc, h5, h6, h7, h8]
    refine ⟨hraw, ?_⟩
    unfold PZEM_Current
    rw [hraw]
    norm_num
  · intro h5 h6 h7 h8
    have hraw : currentRaw p = 6553600 := by rw [hc, h5, h6, h7, h8]
    refine ⟨hraw, ?_⟩
    unfold PZEM_Current
    rw [hraw]
    norm_num

/-- C11 (amended), instance: the caches `handleLow` and `handleHigh`. -/
theorem current_vector_witness :
    (currentRaw handleLow = 100 ∧ PZEM_Current handleLow = 100 / 1000) ∧
      (currentRaw handleHigh = 6553600 ∧ PZEM_Current handleHigh = 65536 / 10) :=
  ⟨(current_vector handleLow ⟨by decide, by decide, by decide, by decide⟩).1
      (by decide) (by decide) (by decide) (by decide),
    (current_vector handleHigh ⟨by decide, by decide, by decide, by decide⟩).2
      (by decide) (by decide) (by decide) (by decide)⟩

/-- C12: after `PZEM_Init`, whatever the handle held before and for every
address, the cache is 25 zero bytes, the address is the one given, the
timeout is 200 and the UART reference is the one given; on that cache each
of the six accessors returns zero. -/
theorem init_state (p0 : PZEM_t) (huart addr : Nat) :
    (PZEM_Init p0 huart addr).lastResponse = List.replicate 25 0 ∧
      (PZEM_Init p0 huart addr).addr = addr ∧
      (PZEM_Init p0 huart addr).timeout = 200 ∧
      (PZEM_Init p0 huart addr).huart = huart ∧
      PZEM_Voltage (PZEM_Init p0 huart addr) = 0 ∧
      PZEM_Current (PZEM_Init p0 huart addr) = 0 ∧
      PZEM_Power (PZEM_Init p0 huart addr) = 0 ∧
      PZEM_Energy (PZEM_Init p0 huart addr) = 0 ∧
      PZEM_Frequency (PZEM_Init p0 huart addr) = 0 ∧
      PZEM_PowerFactor (PZEM_Init p0 huart addr) = 0 := by
  have hv : voltageRaw (PZEM_Init p0 huart addr) = 0 :=
    (by decide : voltageRaw ⟨0, 0, 0, List.replicate 25 0⟩ = 0)
  have hc : currentRaw (PZEM_Init p0 huart addr) = 0 :=
    (by decide : currentRaw ⟨0, 0, 0, List.replicate 25 0⟩ = 0)
  have hp : powerRaw (PZEM_Init p0 huart addr) = 0 :=
    (by decide : powerRaw ⟨0, 0, 0, List.replicate 25 0⟩ = 0)
  have he : energyRaw (PZEM_Init p0 huart addr) = 0 :=
    (by decide : energyRaw ⟨0, 0, 0, List.replicate 25 0⟩ = 0)
  have hf : frequencyRaw (PZEM_Init p0 huart addr) = 0 :=
    (by decide : frequencyRaw ⟨0, 0, 0, List.replicate 25 0⟩ = 0)
  have hpf : powerFactorRaw (PZEM_Init p0 huart addr) = 0 :=
    (by decide : powerFactorRaw ⟨0, 0, 0, List.replicate 25 0⟩ = 0)
  refine ⟨rfl, rfl, rfl, rfl, ?_, ?_, ?_, ?_, ?_, ?_⟩
  · unfold PZEM_Voltage; rw [hv]; norm_num
  · unfold PZEM_Current; rw [hc]; norm_num
  · unfold PZEM_Power; rw [hp]; norm_num
  · unfold PZEM_Energy; rw [he]; norm_num
  · unfold PZEM_Frequency; rw [hf]; norm_num
  · unfold PZEM_PowerFactor; rw [hpf]; norm_num

/-- C13: a call of `PZEM_ResetEnergy`, whatever the transport does and
whatever verdict it returns, stores the bytes it receives in its local array
and leaves the handle as it was: cache, address and timeout are the same
afterwards, and so is the value of every accessor. -/
theorem resetEnergy_keeps_handle (p : PZEM_t) (uart : UART) (ok : Bool) (m : Mem)
    (h : PZEM_ResetEnergy_mem p uart = some (ok, m)) :
    (m.pzem.lastResponse = p.lastResponse ∧ m.pzem.addr = p.addr ∧
      m.pzem.timeout = p.timeout ∧ m.pzem.huart = p.huart) ∧
    (PZEM_Voltage m.pzem = PZEM_Voltage p ∧ PZEM_Current m.pzem = PZEM_Current p ∧
      PZEM_Power m.pzem = PZEM_Power p ∧ PZEM_Energy m.pzem = PZEM_Energy p ∧
      PZEM_Frequency m.pzem = PZEM_Frequency p ∧
      PZEM_PowerFactor m.pzem = PZEM_PowerFactor p) ∧
    (PZEM_ResetEnergy p uart = some ok ∧ step p (Op.resetEnergy uart) = some p) ∧
    (uart.transmit (resetCommand p.addr) p.timeout = true →
      ∃ r, received uart p.timeout 5 = some r ∧
        m.response = r ++ (List.replicate 5 0).drop r.length) := by
  have hv : PZEM_ResetEnergy p uart = some ok := by
    unfold PZEM_ResetEnergy
    rw [h]
    rfl
  have hstep : step p (Op.resetEnergy uart) = some p := by
    rw [step_resetEnergy, hv]
    rfl
  rw [resetEnergy_mem_eq] at h
  have ht : (resetCommand p.addr).take 4 = resetCommand p.addr :=
    List.take_of_length_le (by rw [resetCommand_length])
  cases hsr : sendReceive p uart (resetCommand p.addr) 4 (List.replicate 5 0) 5 with
  | none => rw [hsr] at h; simp at h
  | some res =>
    rw [hsr] at h
    simp only [Option.map_some', Option.some.injEq, Prod.mk.injEq] at h
    obtain ⟨_, hm⟩ := h
    subst hm
    refine ⟨⟨rfl, rfl, rfl, rfl⟩, ⟨rfl, rfl, rfl, rfl, rfl, rfl⟩, ⟨hv, hstep⟩, ?_⟩
    intro htx
    rw [sendReceive_eq p uart (resetCommand p.addr) 4 (List.replicate 5 0) 5 (by norm_num)
      (by norm_num) (by simp) (by rw [ht]; exact htx)] at hsr
    cases hr : received uart p.timeout 5 with
    | none => rw [hr] at hsr; simp at hsr
    | some r =>
      rw [hr] at hsr
      simp only [Option.map_some', Option.some.injEq] at hsr
      exact ⟨r, rfl, by rw [← hsr]⟩

/-- C13, instance: a stray byte `77` received by `PZEM_ResetEnergy` on a
handle whose cache holds `goodFrame` lands in the local array and the handle
is as before, while `PZEM_ReadAll` over the same transport stores it at
position 0 of the cache; an acknowledged reset leaves the handle as it was
too. -/
theorem resetEnergy_keeps_handle_witness :
    step handleGood (Op.resetEnergy uartStray) = some handleGood ∧
      PZEM_ResetEnergy handleGood uartStray = some false ∧
      (∃ r, received uartStray handleGood.timeout 5 = some r ∧
        [0x77, 0, 0, 0, 0] = r ++ (List.replicate 5 0).drop r.length) ∧
      PZEM_ReadAll handleGood uartStray =
        some (false, { handleGood with lastResponse := 0x77 :: goodFrame.drop 1 }) ∧
      PZEM_ResetEnergy_mem handleGood (uartOfBytes ackFrame) =
        some (true, { pzem := handleGood, response := ackFrame }) :=
  ⟨(resetEnergy_keeps_handle handleGood uartStray false
      { pzem := handleGood, response := [0x77, 0, 0, 0, 0] } (by decide)).2.2.1.2,
    (resetEnergy_keeps_handle handleGood uartStray false
      { pzem := handleGood, response := [0x77, 0, 0, 0, 0] } (by decide)).2.2.1.1,
    (resetEnergy_keeps_handle handleGood uartStray false
      { pzem := handleGood, response := [0x77, 0, 0, 0, 0] } (by decide)).2.2.2 (by decide),
    by decide, by decide⟩

/-! ## Verdict of a transaction -/

/-- C14: `PZEM_ReadAll` reports success exactly when the transmission
succeeded, all 25 bytes were collected before a timeout guard ended the
receive loop, and the trailing two bytes match the CRC16 of the first 23;
with fewer than 25 bytes it reports failure whatever the buffer holds, also
when the buffer's contents pass the CRC check. -/
theorem readAll_success_iff (h : PZEM_t) (uart : UART)
    (hlen : h.lastResponse.length = 25) :
    ((∃ h', PZEM_ReadAll h uart = some (true, h')) ↔
      (uart.transmit (readCommand h.addr) h.timeout = true ∧
        ∃ r, received uart h.timeout 25 = some r ∧ r.length = 25 ∧
          ((r.getD 24 0 <<< 8) ||| r.getD 23 0) = calculateCRC r 23)) ∧
    (∀ r, uart.transmit (readCommand h.addr) h.timeout = true →
      received uart h.timeout 25 = some r → r.length < 25 →
        PZEM_ReadAll h uart =
          some (false, { h with lastResponse := r ++ h.lastResponse.drop r.length })) ∧
    (PZEM_ReadAll handleGood uartOneByte = some (false, handleGood) ∧
      received uartOneByte handleGood.timeout 25 = some [1] ∧
      verifyCRC handleGood.lastResponse 25 = true) := by
  refine ⟨⟨?_, ?_⟩, ?_, by decide, by decide, by decide⟩
  · rintro ⟨h', hh⟩
    cases htx : uart.transmit (readCommand h.addr) h.timeout with
    | false =>
      rw [readAll_txfail h uart htx] at hh
      simp at hh
    | true =>
      rw [readAll_eq h uart hlen htx] at hh
      cases hr : received uart h.timeout 25 with
      | none => rw [hr] at hh; simp at hh
      | some r =>
        rw [hr] at hh
        simp only [Option.map_some', Option.some.injEq, Prod.mk.injEq, Bool.and_eq_true,
          decide_eq_true_eq] at hh
        obtain ⟨⟨h25, hv⟩, _⟩ := hh
        have hb := received_bounds uart h.timeout 25 (by norm_num) r hr
        have hdrop : h.lastResponse.drop r.length = [] :=
          List.drop_of_length_le (by omega)
        rw [hdrop, List.append_nil] at hv
        exact ⟨rfl, r, rfl, h25, (verifyCRC_shift_iff r 25 hb.2).mp hv⟩
  · rintro ⟨htx, r, hr, h25, hcrc⟩
    have hb := received_bounds uart h.timeout 25 (by norm_num) r hr
    have hdrop : h.lastResponse.drop r.length = [] :=
      List.drop_of_length_le (by omega)
    have hv : verifyCRC r 25 = true := (verifyCRC_shift_iff r 25 hb.2).mpr hcrc
    refine ⟨{ h with lastResponse := r }, ?_⟩
    rw [readAll_eq h uart hlen htx, hr]
    rw [h25] at hdrop
    simp [hdrop, h25, hv]
  · intro r htx hr hlt
    rw [readAll_eq h uart hlen htx, hr]
    have : ¬ r.length = 25 := by omega
    simp [this]

/-- C14, instance: `goodFrame` is accepted by the fresh handle, and the
single byte of `uartOneByte` is refused. -/
theorem readAll_success_iff_witness :
    (∃ h', PZEM_ReadAll handle0 (uartOfBytes goodFrame) = some (true, h')) ∧
      PZEM_ReadAll handle0 uartOneByte =
        some (false, { handle0 with lastResponse := [1] ++ handle0.lastResponse.drop 1 }) :=
  ⟨(readAll_success_iff handle0 (uartOfBytes goodFrame) (by decide)).1.mpr
      ⟨by decide, goodFrame, by decide, by decide, by decide⟩,
    (readAll_success_iff handle0 uartOneByte (by decide)).2.1 [1] (by decide) (by decide)
      (by decide)⟩

/-- C15: `PZEM_ResetEnergy` reports success exactly when the transmission of
the reset command succeeded, 5 acknowledgement bytes were collected before a
timeout guard fired, and `(r[4] << 8 | r[3])` is the CRC16 of `r[0..2]`; an
acknowledgement of 0..4 bytes is reported as failure. -/
theorem resetEnergy_success_iff (p : PZEM_t) (uart : UART) :
    (PZEM_ResetEnergy p uart = some true ↔
      (uart.transmit (resetCommand p.addr) p.timeout = true ∧
        ∃ r, received uart p.timeout 5 = some r ∧ r.length = 5 ∧
          ((r.getD 4 0 <<< 8) ||| r.getD 3 0) = calculateCRC r 3)) ∧
    (∀ r, uart.transmit (resetCommand p.addr) p.timeout = true →
      received uart p.timeout 5 = some r → r.length < 5 →
        PZEM_ResetEnergy p uart = some false) := by
  refine ⟨⟨?_, ?_⟩, ?_⟩
  · intro hh
    cases htx : uart.transmit (resetCommand p.addr) p.timeout with
    | false =>
      rw [resetEnergy_txfail p uart htx] at hh
      simp at hh
    | true =>
      rw [resetEnergy_eq p uart htx] at hh
      cases hr : received uart p.timeout 5 with
      | none => rw [hr] at hh; simp at hh
      | some r =>
        rw [hr] at hh
        simp only [Option.map_some', Option.some.injEq, Bool.and_eq_true,
          decide_eq_true_eq] at hh
        obtain ⟨h5, hv⟩ := hh
        have hb := received_bounds uart p.timeout 5 (by norm_num) r hr
        have hdrop : (List.replicate 5 0).drop r.length = [] :=
          List.drop_of_length_le (by simp [h5])
        rw [hdrop, List.append_nil] at hv
        exact ⟨rfl, r, rfl, h5, (verifyCRC_shift_iff r 5 hb.2).mp hv⟩
  · rintro ⟨htx, r, hr, h5, hcrc⟩
    have hb := received_bounds uart p.timeout 5 (by norm_num) r hr
    have hdrop : (List.replicate 5 0).drop r.length = [] :=
      List.drop_of_length_le (by simp [h5])
    have hv : verifyCRC r 5 = true := (verifyCRC_shift_iff r 5 hb.2).mpr hcrc
    rw [resetEnergy_eq p uart htx, hr]
    rw [h5] at hdrop
    simp [hdrop, h5, hv]
  · intro r htx hr hlt
    rw [resetEnergy_eq p uart htx, hr]
    have : ¬ r.length = 5 := by omega
    simp [this]

/-- C15, instance: the acknowledgement `ackFrame` is accepted, and the single
byte of `uartOneByte` is refused. -/
theorem resetEnergy_success_iff_witness :
    PZEM_ResetEnergy handle0 (uartOfBytes ackFrame) = some true ∧
      PZEM_ResetEnergy handle0 uartOneByte = some false :=
  ⟨(resetEnergy_success_iff handle0 (uartOfBytes ackFrame)).1.mpr
      ⟨by decide, ackFrame, by decide, by decide, by decide⟩,
    (resetEnergy_success_iff handle0 uartOneByte).2 [1] (by decide) (by decide)
      (by decide)⟩

/-! ## Timeout guards -/

/-- C16: in the receive loop taken as a step function over successive polls,
when after the poll's byte (if any) at least one and fewer than the expected
number of bytes have been received and the tick read at the inter-byte guard
is more than 50 ms after the tick recorded at the last byte, the loop exits
at that poll and the transaction reports failure, whatever the overall
elapsed time; on `uartOneByte` this exit happens 60 ms after the start,
before the overall timeout of 200 ms. -/
theorem interbyte_guard_exit (pzem : PZEM_t) (uart : UART) (sb : List Nat) (ss : Nat)
    (rb : List Nat) (rs : Nat) (pre post : List Poll) (p : Poll) (s : RxState)
    (htx : uart.transmit (sb.take ss) pzem.timeout = true)
    (hpolls : uart.polls = pre ++ p :: post)
    (hrun : afterPolls pzem.timeout (uart.startTick % 2 ^ 32) rs pre
      ⟨rb, 0, uart.startTick % 2 ^ 32⟩ = some s)
    (hpos : 0 < (recvByte s p).bytesReceived) (hlt : (recvByte s p).bytesReceived < rs)
    (hidle : sub32 p.tickIdle (recvByte s p).lastByteTime > 50) :
    ((recvStep pzem.timeout (uart.startTick % 2 ^ 32) s p).2 = true ∧
      recvLoop pzem.timeout (uart.startTick % 2 ^ 32) rs uart.polls
        ⟨rb, 0, uart.startTick % 2 ^ 32⟩ = some (recvByte s p) ∧
      sendReceive pzem uart sb ss rb rs = some (false, (recvByte s p).recvBuffer)) ∧
    (afterPolls handle0.timeout 0 25 [⟨true, 0x01, 0, 0, 0⟩] ⟨handle0.lastResponse, 0, 0⟩ =
        some ⟨handle1.lastResponse, 1, 0⟩ ∧
      sub32 60 0 > 50 ∧ sub32 60 0 ≤ handle0.timeout ∧ handle0.timeout = 200 ∧
      (recvStep handle0.timeout 0 ⟨handle1.lastResponse, 1, 0⟩ ⟨false, 0, 0, 60, 60⟩).2 = true ∧
      PZEM_ReadAll handle0 uartOneByte = some (false, handle1)) := by
  have hbrk : (recvStep pzem.timeout (uart.startTick % 2 ^ 32) s p).2 = true := by
    simp [recvStep, timedOut, hpos, hidle]
  have hs := afterPolls_lt _ _ _ pre _ _ hrun
  have hloop : recvLoop pzem.timeout (uart.startTick % 2 ^ 32) rs uart.polls
      ⟨rb, 0, uart.startTick % 2 ^ 32⟩ = some (recvByte s p) := by
    rw [hpolls, recvLoop_append _ _ _ pre (p :: post) _ s hrun]
    simp only [recvLoop]
    rw [if_pos hs, if_pos hbrk]
    rfl
  refine ⟨⟨hbrk, hloop, ?_⟩, by decide, by decide, by decide, by decide, by decide, by decide⟩
  unfold sendReceive
  rw [htx, hloop]
  have h0 : ¬ (recvByte s p).bytesReceived = 0 := by omega
  simp [h0, hlt]

/-- C16, instance: on `uartOneByte` the second poll, 60 ms after the only
byte, ends the read with a failure. -/
theorem interbyte_guard_exit_witness :
    sendReceive handle0 uartOneByte (readCommand 1) 8 handle0.lastResponse 25 =
      some (false, handle1.lastResponse) :=
  (interbyte_guard_exit handle0 uartOneByte (readCommand 1) 8 handle0.lastResponse 25
    [⟨true, 0x01, 0, 0, 0⟩] [] ⟨false, 0, 0, 60, 60⟩ ⟨handle1.lastResponse, 1, 0⟩
    (by decide) (by decide) (by decide) (by decide) (by decide) (by decide)).1.2.2

/-! ## CRC residue -/

/-- C17: for every byte sequence `d` of length 0..253 with CRC `c`, the CRC
of `d` followed by the low and the high byte of `c` is `0x0000`; and the
frames built for the read-all and the energy-reset command pass the CRC
check of the frame validator. -/
theorem crc_residue (d : List Nat) (_hlen : d.length ≤ 253) (_hb : ∀ b ∈ d, b < 256) :
    calculateCRC (d ++ [calculateCRC d d.length &&& 0xFF, calculateCRC d d.length >>> 8])
        (d.length + 2) = 0x0000 ∧
      (∀ a, a < 256 → verifyCRC (readCommand a) 8 = true ∧
        calculateCRC (readCommand a) 8 = 0x0000) ∧
      (∀ a, a < 256 → verifyCRC (resetCommand a) 4 = true ∧
        calculateCRC (resetCommand a) 4 = 0x0000) := by
  have key : ∀ e : List Nat,
      calculateCRC (e ++ [calculateCRC e e.length &&& 0xFF, calculateCRC e e.length >>> 8])
        (e.length + 2) = 0 := by
    intro e
    rw [calculateCRC_eq_crcFold _ (e.length + 2) (by simp),
      calculateCRC_eq_crcFold e e.length (Nat.le_refl _), List.take_length]
    have : (e ++ [crcFold 0xFFFF e &&& 0xFF, crcFold 0xFFFF e >>> 8]).take (e.length + 2) =
        e ++ [crcFold 0xFFFF e &&& 0xFF, crcFold 0xFFFF e >>> 8] :=
      List.take_of_length_le (by simp)
    rw [this, crcFold_append, crcFold_cons, crcFold_cons]
    exact crcByte_residue (crcFold 0xFFFF e)
  refine ⟨key d, ?_, ?_⟩
  · intro a ha
    have hd : ∀ b ∈ [a, 0x04, 0x00, 0x00, 0x00, 0x0A], b < 256 := by
      intro b hm
      simp only [List.mem_cons, List.mem_singleton, List.not_mem_nil, or_false] at hm
      omega
    rw [readCommand_eq a ha]
    exact ⟨verifyCRC_append_crc [a, 0x04, 0x00, 0x00, 0x00, 0x0A] hd,
      key [a, 0x04, 0x00, 0x00, 0x00, 0x0A]⟩
  · intro a ha
    have hd : ∀ b ∈ [a, 0x42], b < 256 := by
      intro b hm
      simp only [List.mem_cons, List.mem_singleton, List.not_mem_nil, or_false] at hm
      omega
    rw [resetCommand_eq a ha]
    exact ⟨verifyCRC_append_crc [a, 0x42] hd, key [a, 0x42]⟩

/-- C17, instance: the body `01 04 00 00 00 0A` of the read-all command for
address 1 followed by its CRC bytes `70 0D`, and the two frames built for
address 1. -/
theorem crc_residue_witness :
    calculateCRC
        ([0x01, 0x04, 0x00, 0x00, 0x00, 0x0A] ++
          [calculateCRC [0x01, 0x04, 0x00, 0x00, 0x00, 0x0A] 6 &&& 0xFF,
            calculateCRC [0x01, 0x04, 0x00, 0x00, 0x00, 0x0A] 6 >>> 8]) 8 = 0 ∧
      calculateCRC [0x01, 0x04, 0x00, 0x00, 0x00, 0x0A] 6 &&& 0xFF = 0x70 ∧
      calculateCRC [0x01, 0x04, 0x00, 0x00, 0x00, 0x0A] 6 >>> 8 = 0x0D ∧
      verifyCRC (readCommand 1) 8 = true ∧ verifyCRC (resetCommand 1) 4 = true :=
  ⟨(crc_residue [0x01, 0x04, 0x00, 0x00, 0x00, 0x0A] (by decide) (by decide)).1,
    by decide, by decide,
    ((crc_residue [] (by decide) (by decide)).2.1 1 (by decide)).1,
    ((crc_residue [] (by decide) (by decide)).2.2 1 (by decide)).1⟩

/-! ## Header check and extent of writes -/

/-- C18: the response header is not compared with the handle: two handles
that differ only in their bus address, on transports with the same
transmission verdict, start tick and polls, get the same verdict from
`PZEM_ReadAll` and the same cache; the frame `oddFrame`, with a matching CRC
and header `02 05 13`, is accepted and cached by the handle for address 1. -/
theorem header_not_checked (h1 h2 : PZEM_t) (u1 u2 : UART)
    (hto : h1.timeout = h2.timeout) (hcache : h1.lastResponse = h2.lastResponse)
    (htx : u1.transmit (readCommand h1.addr) h1.timeout =
      u2.transmit (readCommand h2.addr) h2.timeout)
    (hst : u1.startTick = u2.startTick) (hp : u1.polls = u2.polls) :
    ((PZEM_ReadAll h1 u1).map (fun r => (r.1, r.2.lastResponse)) =
        (PZEM_ReadAll h2 u2).map (fun r => (r.1, r.2.lastResponse))) ∧
      (PZEM_ReadAll handle0 (uartOfBytes oddFrame) =
          some (true, { handle0 with lastResponse := oddFrame }) ∧
        oddFrame.getD 0 0 ≠ handle0.addr ∧ oddFrame.getD 1 0 ≠ 0x04 ∧
        oddFrame.getD 2 0 ≠ 0x14) := by
  refine ⟨?_, by decide, by decide, by decide, by decide⟩
  have ht1 : (readCommand h1.addr).take 8 = readCommand h1.addr :=
    List.take_of_length_le (by rw [readCommand_length])
  have ht2 : (readCommand h2.addr).take 8 = readCommand h2.addr :=
    List.take_of_length_le (by rw [readCommand_length])
  unfold PZEM_ReadAll readRegisters sendReceive
  rw [ht1, ht2, htx, hto, hcache, hst, hp]
  cases u2.transmit (readCommand h2.addr) h2.timeout with
  | false => simp
  | true =>
    simp only [Bool.true_eq_false, if_false]
    cases recvLoop h2.timeout (u2.startTick % 2 ^ 32) RESPONSE_SIZE u2.polls
        ⟨h2.lastResponse, 0, u2.startTick % 2 ^ 32⟩ with
    | none => rfl
    | some t =>
      simp only []
      split_ifs <;> rfl

/-- C18, instance: the handles for addresses 1 and 2 reading `oddFrame`. -/
theorem header_not_checked_witness :
    (PZEM_ReadAll handle0 (uartOfBytes oddFrame)).map (fun r => (r.1, r.2.lastResponse)) =
      (PZEM_ReadAll { handle0 with addr := 2 } (uartOfBytes oddFrame)).map
        (fun r => (r.1, r.2.lastResponse)) :=
  (header_not_checked handle0 { handle0 with addr := 2 } (uartOfBytes oddFrame)
    (uartOfBytes oddFrame) rfl rfl rfl rfl rfl).1

/-- C19: in a call of `PZEM_ReadAll` in which `k` bytes (0..25) were received
before the receive loop ended, the positions `0..k-1` of the cache hold the
received bytes in arrival order and every position from `k` on holds what it
held before, also the positions from 25 on when the list is taken to extend
over the memory that follows the cache; when the transmission fails or no
byte arrives nothing changes. -/
theorem readAll_write_extent (h h' : PZEM_t) (uart : UART) (ok : Bool)
    (hlen : 25 ≤ h.lastResponse.length) (hcall : PZEM_ReadAll h uart = some (ok, h')) :
    ∃ r : List Nat, r.length ≤ 25 ∧
      (uart.transmit (readCommand h.addr) h.timeout = true →
        received uart h.timeout 25 = some r) ∧
      (uart.transmit (readCommand h.addr) h.timeout = false → r = []) ∧
      h'.lastResponse = r ++ h.lastResponse.drop r.length ∧
      h'.lastResponse.length = h.lastResponse.length ∧
      (∀ i, i < r.length → h'.lastResponse.getD i 0 = r.getD i 0) ∧
      (∀ i, r.length ≤ i → h'.lastResponse.getD i 0 = h.lastResponse.getD i 0) ∧
      (r = [] → h'.lastResponse = h.lastResponse) := by
  have hsplit : ∀ r : List Nat, r.length ≤ 25 →
      (r ++ h.lastResponse.drop r.length).length = h.lastResponse.length ∧
      (∀ i, i < r.length → (r ++ h.lastResponse.drop r.length).getD i 0 = r.getD i 0) ∧
      (∀ i, r.length ≤ i →
        (r ++ h.lastResponse.drop r.length).getD i 0 = h.lastResponse.getD i 0) := by
    intro r hr
    refine ⟨by simp; omega, ?_, ?_⟩
    · intro i hi
      rw [List.getD_append _ _ _ _ hi]
    · intro i hi
      rw [List.getD_append_right _ _ _ _ hi]
      simp only [List.getD_eq_getElem?_getD, List.getElem?_drop]
      congr 2
      omega
  cases htx : uart.transmit (readCommand h.addr) h.timeout with
  | false =>
    rw [readAll_txfail h uart htx] at hcall
    simp only [Option.some.injEq, Prod.mk.injEq] at hcall
    obtain ⟨_, hh⟩ := hcall
    subst hh
    exact ⟨[], by simp, by simp, by simp, by simp, by simp, by simp, by simp, by simp⟩
  | true =>
    rw [readAll_eq_ge h uart hlen htx] at hcall
    cases hr : received uart h.timeout 25 with
    | none => rw [hr] at hcall; simp at hcall
    | some r =>
      rw [hr] at hcall
      simp only [Option.map_some', Option.some.injEq, Prod.mk.injEq] at hcall
      obtain ⟨_, hh⟩ := hcall
      subst hh
      have hb := received_bounds uart h.timeout 25 (by norm_num) r hr
      obtain ⟨s1, s2, s3⟩ := hsplit r hb.1
      refine ⟨r, hb.1, fun _ => rfl, by simp, rfl, s1, s2, s3, ?_⟩
      intro hnil
      subst hnil
      simp

/-- C19, instance: one byte received into a cache that held `goodFrame`,
followed in memory by the bytes `AA BB`: position 0 is written, the other 24
positions of the cache and the two bytes behind it are as before. -/
theorem readAll_write_extent_witness :
    ∃ r : List Nat, r.length ≤ 25 ∧
      (uartOneByte.transmit (readCommand 1) 200 = true →
        received uartOneByte 200 25 = some r) ∧
      (uartOneByte.transmit (readCommand 1) 200 = false → r = []) ∧
      (1 :: (goodFrame.drop 1 ++ [0xAA, 0xBB])) =
        r ++ (goodFrame ++ [0xAA, 0xBB]).drop r.length ∧
      (1 :: (goodFrame.drop 1 ++ [0xAA, 0xBB])).length = (goodFrame ++ [0xAA, 0xBB]).length ∧
      (∀ i, i < r.length →
        (1 :: (goodFrame.drop 1 ++ [0xAA, 0xBB])).getD i 0 = r.getD i 0) ∧
      (∀ i, r.length ≤ i →
        (1 :: (goodFrame.drop 1 ++ [0xAA, 0xBB])).getD i 0 =
          (goodFrame ++ [0xAA, 0xBB]).getD i 0) ∧
      (r = [] → (1 :: (goodFrame.drop 1 ++ [0xAA, 0xBB])) = goodFrame ++ [0xAA, 0xBB]) :=
  readAll_write_extent { handle0 with lastResponse := goodFrame ++ [0xAA, 0xBB] }
    { handle0 with lastResponse := 1 :: (goodFrame.drop 1 ++ [0xAA, 0xBB]) } uartOneByte false
    (by decide) (by decide)

/-! ## Tick arithmetic -/

/-- C20: the elapsed-time computations of the receive loop are unsigned
32-bit subtractions: for a start tick `s` and a true elapsed time
`d < 2^32`, with `now = (s + d) mod 2^32`, `(now - s) mod 2^32 = d`; so the
overall guard fires exactly when `d > timeout` and the inter-byte guard
exactly when the true silence `e` since the last byte exceeds 50 ms, also on
`uartWrap`, where the counter wraps from `0xFFFFFFFF` to 0 during the
transaction. -/
theorem tick_wraparound (s d : Nat) (_hs : s < 2 ^ 32) (hd : d < 2 ^ 32) :
    sub32 ((s + d) % 2 ^ 32) s = d ∧
      (∀ (timeout e : Nat) (st : RxState) (p : Poll), e < 2 ^ 32 →
        p.tickTotal = (s + d) % 2 ^ 32 → p.tickIdle = (st.lastByteTime + e) % 2 ^ 32 →
          timedOut timeout s st p =
            (decide (d > timeout) || (decide (st.bytesReceived > 0) && decide (e > 50)))) ∧
      (sub32 0x00000030 0xFFFFFFF0 = 64 ∧ sub32 0x00000030 0xFFFFFFFA = 54 ∧
        timedOut 200 0xFFFFFFF0 ⟨handle1.lastResponse, 1, 0xFFFFFFFA⟩
          ⟨false, 0, 0, 0x00000030, 0x00000030⟩ = true ∧
        PZEM_ReadAll handle0 uartWrap = some (false, handle1)) := by
  refine ⟨sub32_add s d hd, ?_, by decide, by decide, by decide, by decide⟩
  intro timeout e st p he ht hi
  unfold timedOut
  rw [ht, hi, sub32_add s d hd, sub32_add st.lastByteTime e he]

/-- C20, instance: start tick `0xFFFFFFF0` and 64 ms elapsed: the counter
reads `0x00000030` and the difference is 64. -/
theorem tick_wraparound_witness :
    (0xFFFFFFF0 + 64) % 2 ^ 32 = 0x00000030 ∧ sub32 ((0xFFFFFFF0 + 64) % 2 ^ 32) 0xFFFFFFF0 = 64 :=
  ⟨by decide, (tick_wraparound 0xFFFFFFF0 64 (by decide) (by decide)).1⟩

end PZEM
